import Mathlib

/-! Verification development for the ch2ts core pipeline: a shallow embedding of
the tokenizer, statement splitter/filter, parser helpers, type resolver and
renderers, together with theorems settling the specification claims.

Strings from the TypeScript source are modelled as Lean `String`s; the handful
of JavaScript string primitives the code uses (`trim`, `toLowerCase`,
`split(/;/)`, `startsWith`-style regex tests, truthiness of optional strings)
are embedded explicitly below, restricted to the ASCII behaviour the DDL
pipeline exercises. -/

set_option maxRecDepth 4096

/-! ## JavaScript string primitives -/

/-- The JavaScript `\s` character class (WhiteSpace plus LineTerminator):
this is also the set trimmed by `String.prototype.trim`. -/
def jsWs (c : Char) : Bool :=
  c == '\t' || c == '\n' || c == '\x0b' || c == '\x0c' || c == '\r' || c == ' ' ||
  c == '\u00a0' || c == '\u1680' || ('\u2000' ≤ c && c ≤ '\u200a') ||
  c == '\u2028' || c == '\u2029' || c == '\u202f' || c == '\u205f' ||
  c == '\u3000' || c == '\ufeff'

/-- ASCII lower-casing of one character (JS `toLowerCase` on the ASCII range). -/
def lowerChar (c : Char) : Char :=
  if 'A' ≤ c && c ≤ 'Z' then Char.ofNat (c.toNat + 32) else c

/-- ASCII upper-casing of one character (JS `toUpperCase` on the ASCII range). -/
def upperChar (c : Char) : Char :=
  if 'a' ≤ c && c ≤ 'z' then Char.ofNat (c.toNat - 32) else c

/-- JS `String.prototype.toLowerCase` (ASCII model). -/
def lowerStr (s : String) : String := ⟨s.data.map lowerChar⟩

/-- Drop trailing characters satisfying `p`. -/
def dropTrail (p : Char → Bool) (l : List Char) : List Char :=
  (l.reverse.dropWhile p).reverse

/-- JS `String.prototype.trim` on a character list. -/
def trimL (l : List Char) : List Char := dropTrail jsWs (l.dropWhile jsWs)

/-- JS `String.prototype.trim`. -/
def trimStr (s : String) : String := ⟨trimL s.data⟩

/-- Character-list prefix test (the engine behind `startsWith` and `/^pat/`). -/
def listIsPre : List Char → List Char → Bool
  | [], _ => true
  | _ :: _, [] => false
  | a :: as, b :: bs => a == b && listIsPre as bs

/-- JS `String.prototype.startsWith` / an anchored `/^lit/` regex test. -/
def strStarts (s pat : String) : Bool := listIsPre pat.data s.data

/-- JS truthiness of a `string | undefined` value (`undefined` and `""` are falsy). -/
def jsTruthy : Option String → Bool
  | none => false
  | some s => s != ""

/-- JS `Array.prototype.join(sep)`. -/
def joinSep (sep : String) : List String → String
  | [] => ""
  | [x] => x
  | x :: xs => x ++ sep ++ joinSep sep xs

/-- JS `String.prototype.split(/;/)` on a character list. -/
def splitOnSemi : List Char → List (List Char)
  | [] => [[]]
  | c :: rest =>
    if c = ';' then [] :: splitOnSemi rest
    else
      match splitOnSemi rest with
      | [] => [[c]]
      | h :: t => (c :: h) :: t

/-! ## Data model (`types.ts`) -/

mutual
/-- `TypeAst`: a parsed type expression `{ name, args }`. -/
inductive TypeAst where
  | mk (name : String) (args : List TypeArg)

/-- `TypeArg`: nested type, number literal, string literal, or enum member. -/
inductive TypeArg where
  | type (t : TypeAst)
  | num (n : Int)
  | str (s : String)
  | enum (key : String) (value : Int)
end

/-- Projection of the `name` field of a `TypeAst`. -/
def TypeAst.name : TypeAst → String
  | .mk n _ => n

/-- Projection of the `args` field of a `TypeAst`. -/
def TypeAst.args : TypeAst → List TypeArg
  | .mk _ a => a

/-- `ColumnAst`: one parsed column declaration. -/
structure ColumnAst where
  name : String
  type : TypeAst
  rawType : String
  comment : Option String
  default : Option String

/-- One item of a materialized view's SELECT projection list. -/
structure SelectItem where
  name : String
  aliasName : Option String  -- the source field `alias` (a reserved word in Lean)
  srcName : Option String
  func : Option String

/-- `mvCte`: information extracted from a `WITH` CTE inside a materialized view. -/
structure CteInfo where
  name : String
  src : Option String
  columns : List SelectItem

/-- `TableAst`: one parsed table / materialized-view declaration. -/
structure TableAst where
  name : String
  columns : List ColumnAst
  partitionBy : Option String
  orderBy : Option String
  mvFrom : Option String := none
  mvSelect : Option (List SelectItem) := none
  mvCte : Option CteInfo := none

/-- `MappingOptions.int64As` values. -/
inductive Int64As where
  | bigint
  | string
deriving DecidableEq

/-- `MappingOptions.decimal` values. -/
inductive DecimalAs where
  | string
  | decimalJs
deriving DecidableEq

/-- `MappingOptions.datetimeAs` values. -/
inductive DatetimeAs where
  | string
  | date
deriving DecidableEq

/-- `MappingOptions`; a plugin is modelled by its `mapType` callback
(the context argument carries only the options themselves). -/
structure MappingOptions where
  int64As : Int64As
  decimal : DecimalAs
  datetimeAs : DatetimeAs
  camelCase : Bool
  failOnUnknown : Bool := false
  plugins : List (TypeAst → Option String) := []

/-- One column of a `MappedTable`. -/
structure MappedColumn where
  name : String
  tsType : String
  chType : String
  typeAst : TypeAst
  comment : Option String

/-- Table metadata carried through mapping. -/
structure MappedMeta where
  partitionBy : Option String
  orderBy : Option String

/-- `MappedTable`: the resolver's output for one table. -/
structure MappedTable where
  interfaceName : String
  columns : List MappedColumn
  meta : MappedMeta

/-! ## Casing helpers (`types.ts`) -/

/-- Is `c` an ASCII letter or digit (the `[a-zA-Z0-9]` class)? -/
def alnumChar (c : Char) : Bool :=
  ('a' ≤ c && c ≤ 'z') || ('A' ≤ c && c ≤ 'Z') || ('0' ≤ c && c ≤ '9')

/-- Is `c` one of the separator characters `[_-]`? -/
def sepChar (c : Char) : Bool := c == '_' || c == '-'

/-- The global replace `input.replace(/[_-]+([a-zA-Z0-9])/g, (_, c) => c.toUpperCase())`:
a maximal run of separators followed by an alphanumeric collapses to that
character upper-cased; a run not followed by an alphanumeric is kept. The
recursion is structural on a fuel that always covers the list length (each
step consumes at least one character), keeping the definition computable. -/
def camelGo : Nat → List Char → List Char
  | 0, _ => []
  | _ + 1, [] => []
  | fuel + 1, c :: rest =>
    if sepChar c then
      match rest.dropWhile sepChar with
      | d :: tail =>
        if alnumChar d then upperChar d :: camelGo fuel tail
        else c :: rest.takeWhile sepChar ++ camelGo fuel (d :: tail)
      | [] => c :: rest.takeWhile sepChar
    else c :: camelGo fuel rest

/-- The separator-collapsing replace, at adequate fuel. -/
def camelRepl (l : List Char) : List Char := camelGo l.length l

/-- `toCamelCase` from `types.ts`: collapse `[_-]+x` runs, then lower-case a
leading ASCII capital (`replace(/^[A-Z]/, c => c.toLowerCase())`). -/
def toCamelCase (s : String) : String :=
  ⟨match camelRepl s.data with
    | [] => []
    | c :: r => if 'A' ≤ c && c ≤ 'Z' then lowerChar c :: r else c :: r⟩

/-- `toPascalCase` from `types.ts`: `toCamelCase` then upper-case the first char. -/
def toPascalCase (s : String) : String :=
  ⟨match (toCamelCase s).data with
    | [] => []
    | c :: r => upperChar c :: r⟩

/-! ## Shared AST utilities (`ast-utils.ts`) -/

/-- `toTypeOrUnknown`: coerce a possibly-missing / non-type argument to a
`TypeAst`, substituting the `Unknown` leaf. -/
def toTypeOrUnknown : Option TypeArg → TypeAst
  | some (.type t) => t
  | _ => .mk "Unknown" []

/-- `firstTypeArg` from `ast-utils.ts`. -/
def firstTypeArg (t : TypeAst) : TypeAst := toTypeOrUnknown t.args.head?

/-- `secondTypeArg` from `ast-utils.ts`. -/
def secondTypeArg (t : TypeAst) : TypeAst := toTypeOrUnknown t.args[1]?

/-! ## Type mapping and resolution (`emitter.ts`) -/

namespace Emitter

/-- Errors thrown by the mapping code (`throw new Error(...)` / failed `assert`s). -/
inductive EmitErr where
  | depthExceeded
  | unknownType (name : String)
  | invalid (msg : String)
deriving DecidableEq

/-- `MAX_TYPE_DEPTH`: maximum recursion depth for type mapping safety. -/
def MAX_TYPE_DEPTH : Nat := 20

/-- `validateTypeAst`: non-empty name, at most `MAX_TUPLE_ELEMENTS = 100` args.
The `typeof`-shape assertions are discharged by typing. -/
def validateTypeAst (t : TypeAst) : Except EmitErr Unit :=
  if t.name = "" then .error (.invalid "TypeAst name cannot be empty")
  else if t.args.length > 100 then .error (.invalid "Too many type args")
  else .ok ()

/-- `extractEnumKeys`: enum keys among the first `MAX_ENUM_KEYS = 1000` args,
keeping only non-empty string keys. -/
def extractEnumKeys (args : List TypeArg) : List String :=
  (args.take 1000).filterMap fun a =>
    match a with
    | .enum k _ => if k.length > 0 then some k else none
    | _ => none

/-- `escapeStringLiteral`: `str.replace(/'/g, "\\'")` on a character list. -/
def escChars : List Char → List Char
  | [] => []
  | '\'' :: r => '\\' :: '\'' :: escChars r
  | c :: r => c :: escChars r

/-- `escapeStringLiteral`: escape single quotes. -/
def escapeStringLiteral (s : String) : String := ⟨escChars s.data⟩

/-- `mapEnumType`: string-literal union of the enum keys, `"string"` fallback. -/
def mapEnumType (t : TypeAst) : String :=
  let keys := extractEnumKeys t.args
  if keys.length = 0 then "string"
  else joinSep " | " (keys.map fun k => "'" ++ escapeStringLiteral k ++ "'")

/-- The recursion of `mapTypeAstToTs` (`emitter.ts`), made structural on an
explicit budget. The TypeScript function guards `depth > MAX_TYPE_DEPTH` at
every call and increments `depth` on every recursive call, so the recursion
is bounded by the remaining budget `MAX_TYPE_DEPTH + 2 - depth`; the wrapper
below passes exactly that budget. A call with `fuel = 0` can only arise when
`depth > MAX_TYPE_DEPTH + 1`, where the TypeScript guard likewise throws the
depth-exceeded error, so the two definitions agree at every configuration.
The body inlines `mapCoreType` and its per-case helpers (`mapNullableType`,
`mapLowCardinalityType`, `mapArrayType`, `mapTupleType`, `mapMapType`,
`mapDecimalType`, `mapBigIntType`, `mapDateTimeType`, `handleUnknownType`). -/
def mapTypeGo (options : MappingOptions) :
    Nat → TypeAst → Nat → Except EmitErr String
  | 0, _, _ => .error .depthExceeded
  | fuel + 1, type, depth =>
    if depth > MAX_TYPE_DEPTH then .error .depthExceeded
    else do
      let () ← validateTypeAst type
      -- validateMappingOptions: vacuous here, the option fields are enumerations
      match (options.plugins.take 50).findSome? (fun p => p type) with
      | some s => pure s
      | none =>
        match type with
        | .mk "Nullable" args => do
            let innerTs ← mapTypeGo options fuel (toTypeOrUnknown args.head?) (depth + 1)
            pure (innerTs ++ " | null")
        | .mk "LowCardinality" args =>
            mapTypeGo options fuel (toTypeOrUnknown args.head?) (depth + 1)
        | .mk "Array" args => do
            let innerTs ← mapTypeGo options fuel (toTypeOrUnknown args.head?) (depth + 1)
            pure (innerTs ++ "[]")
        | .mk "Tuple" args => do
            let parts ← (args.take 100).enum.mapM fun p => do
              let argType ← mapTypeGo options fuel (toTypeOrUnknown (some p.2)) (depth + 1)
              pure ("_" ++ toString p.1 ++ ": " ++ argType ++ ";")
            pure ("\x7b " ++ joinSep " " parts ++ " \x7d")
        | .mk "Map" args => do
            let valueTs ← mapTypeGo options fuel (toTypeOrUnknown args[1]?) (depth + 1)
            pure ("Record<string, " ++ valueTs ++ ">")
        | .mk "Enum8" _ | .mk "Enum16" _ => pure (mapEnumType type)
        | .mk "Decimal" _ =>
            pure (if options.decimal = .decimalJs then "Decimal" else "string")
        | .mk "Float32" _ | .mk "Float64" _ | .mk "Int8" _ | .mk "Int16" _
        | .mk "Int32" _ | .mk "UInt8" _ | .mk "UInt16" _ | .mk "UInt32" _ =>
            pure "number"
        | .mk "Int64" _ | .mk "UInt64" _ =>
            pure (if options.int64As = .bigint then "bigint" else "string")
        | .mk "String" _ | .mk "UUID" _ | .mk "FixedString" _ | .mk "IPv4" _
        | .mk "IPv6" _ => pure "string"
        | .mk "Date" _ | .mk "DateTime" _ | .mk "DateTime64" _ =>
            pure (if options.datetimeAs = .date then "Date" else "string")
        | .mk name _ =>
            if options.failOnUnknown then .error (.unknownType name)
            else pure "unknown"

/-- `mapTypeAstToTs` (`emitter.ts`): depth ceiling, input validation, plugin
override (first 50 plugins, first defined result wins), then core dispatch. -/
def mapTypeAstToTs (type : TypeAst) (options : MappingOptions) (depth : Nat := 0) :
    Except EmitErr String :=
  mapTypeGo options (MAX_TYPE_DEPTH + 2 - depth) type depth

/-- Last-write-wins lookup in a JS `Map` modelled as the list of `set` calls. -/
def mapGet {α : Type} (m : List (String × α)) (k : String) : Option α :=
  m.foldl (fun acc p => if p.1 = k then some p.2 else acc) none

/-- A JS `Map.set` call (appending keeps `mapGet` last-write-wins). -/
def mapSet {α : Type} (m : List (String × α)) (k : String) (v : α) :
    List (String × α) :=
  m ++ [(k, v)]

/-- The per-item `{func?, src?}` records held by `mvInfoMap` / `cteAliasMap`. -/
structure MvInfo where
  func : Option String
  src : Option String

/-- `MappingContext` from `emitter.ts`. -/
structure MappingContext where
  sourceTable : Option TableAst
  aliasMap : List (String × String)
  mvInfoMap : List (String × MvInfo)
  cteAliasMap : List (String × MvInfo)
  cteSourceTable : Option TableAst

/-- `buildAliasMap`: map each aliased SELECT item (first `MAX_SELECT_ITEMS =
1000` items, non-empty alias) to `item.srcName ?? item.name`. -/
def buildAliasMap (table : TableAst) : List (String × String) :=
  match table.mvSelect with
  | none => []
  | some items =>
    (items.take 1000).foldl
      (fun m item =>
        match item.aliasName with
        | some a => if a ≠ "" then mapSet m a (item.srcName.getD item.name) else m
        | none => m)
      []

/-- `buildMvInfoMap`: map each SELECT item's output name (`alias ?? name`,
non-empty) to its `{func, src}` record. -/
def buildMvInfoMap (table : TableAst) : List (String × MvInfo) :=
  match table.mvSelect with
  | none => []
  | some items =>
    (items.take 1000).foldl
      (fun m item =>
        let key := item.aliasName.getD item.name
        if key ≠ "" then mapSet m key ⟨item.func, item.srcName⟩ else m)
      []

/-- `buildCteAliasMap`: map each CTE column's output name (first
`MAX_CTE_COLUMNS = 1000` columns) to `{func, src ?? name}`. -/
def buildCteAliasMap (table : TableAst) : List (String × MvInfo) :=
  match table.mvCte with
  | none => []
  | some cte =>
    (cte.columns.take 1000).foldl
      (fun m column =>
        let key := column.aliasName.getD column.name
        if key ≠ "" then mapSet m key ⟨column.func, some (column.srcName.getD column.name)⟩
        else m)
      []

/-- `findTableByName`: exact match first, then a `toPascalCase`-normalized
match; asserts the queried name is non-empty. -/
def findTableByName (tables : List TableAst) (name : String) :
    Except EmitErr (Option TableAst) :=
  if name = "" then .error (.invalid "Table name cannot be empty")
  else .ok (match tables.find? (fun t => t.name = name) with
    | some t => some t
    | none => tables.find? (fun t => toPascalCase t.name = toPascalCase name))

/-- `findColumnByName`: exact match first, then a `toCamelCase`-normalized
match; asserts the queried name is non-empty. -/
def findColumnByName (table : TableAst) (name : String) :
    Except EmitErr (Option ColumnAst) :=
  if name = "" then .error (.invalid "Column name cannot be empty")
  else .ok (match table.columns.find? (fun c => c.name = name) with
    | some c => some c
    | none => table.columns.find? (fun c => toCamelCase c.name = toCamelCase name))

/-- `createMappingContext`: look up the MV source table and the CTE source
table (JS truthiness guards the lookups) and build the three lookup maps. -/
def createMappingContext (table : TableAst) (allTables : List TableAst) :
    Except EmitErr MappingContext := do
  let sourceTable ←
    match table.mvFrom with
    | some s => if s ≠ "" then findTableByName allTables s else pure none
    | none => pure none
  let cteSourceTable ←
    match table.mvCte with
    | some cte =>
      match cte.src with
      | some s => if s ≠ "" then findTableByName allTables s else pure none
      | none => pure none
    | none => pure none
  pure ⟨sourceTable, buildAliasMap table, buildMvInfoMap table,
        buildCteAliasMap table, cteSourceTable⟩

/-- The source-name computation inside `resolveFromSourceTable`: the alias
map's entry when truthy, the column's own name otherwise. -/
def sourceNameFor (aliasMap : List (String × String)) (name : String) : String :=
  match mapGet aliasMap name with
  | some a => if a ≠ "" then a else name
  | none => name

/-- `resolveFromSourceTable`: resolve an Unknown MV column from the direct
source table, adopting the found column's type and raw text verbatim. -/
def resolveFromSourceTable (column : ColumnAst) (context : MappingContext) :
    Except EmitErr (Option (TypeAst × String)) :=
  match context.sourceTable with
  | none => pure none
  | some src => do
    let sourceName := sourceNameFor context.aliasMap column.name
    let sourceColumn ← findColumnByName src sourceName
    pure (sourceColumn.map fun c => (c.type, c.rawType))

/-- `mapFuncToType`: conversion-function name → ClickHouse type heuristic. -/
def mapFuncToType (funcName : String) : Except EmitErr TypeAst :=
  if funcName = "" then .error (.invalid "Function name cannot be empty")
  else
    let n := trimStr (lowerStr funcName)
    .ok (if strStarts n "tofloat" then .mk "Float64" []
      else if strStarts n "toint" then .mk "Int64" []
      else if strStarts n "touint" then .mk "UInt64" []
      else if strStarts n "todecimal" then .mk "Decimal" []
      else if n = "tostartofday" then .mk "DateTime" []
      else .mk "Unknown" [])

/-- `resolveCTEBaseType`: function-based mapping first, then source-column
lookup in the CTE's source table. -/
def resolveCTEBaseType (cteInfo : MvInfo) (context : MappingContext) :
    Except EmitErr (Option TypeAst) := do
  let fromFunc : Option TypeAst ←
    match cteInfo.func with
    | some f =>
      if f ≠ "" then do
        let funcType ← mapFuncToType f
        pure (if funcType.name ≠ "Unknown" then some funcType else none)
      else pure none
    | none => pure none
  match fromFunc with
  | some t => pure (some t)
  | none =>
    match cteInfo.src, context.cteSourceTable with
    | some s, some tbl =>
      if s ≠ "" then do
        let sourceColumn ← findColumnByName tbl s
        pure (sourceColumn.map (·.type))
      else pure none
    | _, _ => pure none

/-- `isNumericAggregate`: `/^sum/ || /^avg/ || /^count/`. -/
def isNumericAggregate (n : String) : Bool :=
  strStarts n "sum" || strStarts n "avg" || strStarts n "count"

/-- `isStatePreservingAggregate`:
`/^anylast/ || /^anystate/ || /^max/ || /^min/ || /^argmin/ || /^argmax/`. -/
def isStatePreservingAggregate (n : String) : Bool :=
  strStarts n "anylast" || strStarts n "anystate" || strStarts n "max" ||
  strStarts n "min" || strStarts n "argmin" || strStarts n "argmax"

/-- `resolveAggReturnType`: the aggregate-function return-type policy.
A falsy (`undefined` or empty) function name returns the base type, so the
non-empty assertion after that guard can never fire. -/
def resolveAggReturnType (funcName : Option String) (baseType : Option TypeAst) :
    Option TypeAst :=
  if !jsTruthy funcName then baseType
  else
    let n := trimStr (lowerStr (funcName.getD ""))
    if n = "tostartofday" then some (.mk "DateTime" [])
    else if isNumericAggregate n then some (.mk "Float64" [])
    else if isStatePreservingAggregate n then some (baseType.getD (.mk "Float64" []))
    else baseType

/-- The base-type computation at the start of `resolveFromCTE`: look up the
CTE record named by `mvInfo.src` (if truthy) and resolve its base type. -/
def resolveFromCTEBase (mvInfo : MvInfo) (context : MappingContext) :
    Except EmitErr (Option TypeAst) :=
  let cteInfo :=
    match mvInfo.src with
    | some s => if s ≠ "" then mapGet context.cteAliasMap s else none
    | none => none
  match cteInfo with
  | some ci => resolveCTEBaseType ci context
  | none => pure none

/-- `resolveFromCTE`: resolve an Unknown MV column through the named
sub-query: no projection record → `String` fallback; otherwise apply the
aggregate policy to the recorded function name and base type, falling back to
`String` for function-less items with no result, and to nothing otherwise. -/
def resolveFromCTE (column : ColumnAst) (context : MappingContext) :
    Except EmitErr (Option (TypeAst × String)) :=
  match mapGet context.mvInfoMap column.name with
  | none => pure (some (.mk "String" [], "String"))
  | some mvInfo => do
    let baseType ← resolveFromCTEBase mvInfo context
    match resolveAggReturnType mvInfo.func baseType with
    | some resolvedType => pure (some (resolvedType, resolvedType.name))
    | none =>
      if !jsTruthy mvInfo.func then pure (some (.mk "String" [], "String"))
      else pure none

/-- `resolveUnknownType`: source-table path when a source table was found,
CTE path otherwise. -/
def resolveUnknownType (column : ColumnAst) (context : MappingContext) :
    Except EmitErr (Option (TypeAst × String)) :=
  if context.sourceTable.isSome then resolveFromSourceTable column context
  else resolveFromCTE column context

/-- `validateColumn`: non-empty column name (shape asserts are typing). -/
def validateColumn (column : ColumnAst) : Except EmitErr Unit :=
  if column.name = "" then .error (.invalid "Column name cannot be empty")
  else pure ()

/-- `mapSingleColumn`: resolve a placeholder type if needed, then map to a
TypeScript type and build the output column. -/
def mapSingleColumn (column : ColumnAst) (context : MappingContext)
    (options : MappingOptions) : Except EmitErr MappedColumn := do
  let (resolvedType, rawType) ←
    if column.type.name = "Unknown" then do
      let resolved ← resolveUnknownType column context
      pure (match resolved with
        | some (t, r) => (t, r)
        | none => (column.type, column.rawType))
    else pure (column.type, column.rawType)
  let chType := trimStr rawType
  let tsType ← mapTypeAstToTs resolvedType options
  pure ⟨if options.camelCase then toCamelCase column.name else column.name,
        tsType, chType, resolvedType, column.comment⟩

/-- `mapTableColumns`: validate then map each column, in declaration order. -/
def mapTableColumns (table : TableAst) (context : MappingContext)
    (options : MappingOptions) : Except EmitErr (List MappedColumn) :=
  table.columns.mapM fun column => do
    let () ← validateColumn column
    mapSingleColumn column context options

/-- `mapSingleTable`: build the mapping context and map all columns. -/
def mapSingleTable (table : TableAst) (allTables : List TableAst)
    (options : MappingOptions) : Except EmitErr MappedTable := do
  let context ← createMappingContext table allTables
  let columns ← mapTableColumns table context options
  pure ⟨toPascalCase table.name, columns, ⟨table.partitionBy, table.orderBy⟩⟩

/-- `validateTableArray`: non-empty names, at most `MAX_COLUMNS_PER_TABLE =
10000` columns per table. -/
def validateTableArray (tables : List TableAst) : Except EmitErr Unit :=
  tables.forM fun t =>
    if t.name = "" then .error (.invalid "Table name cannot be empty")
    else if t.columns.length > 10000 then .error (.invalid "Too many columns")
    else pure ()

/-- `map` (`emitter.ts`): the resolver entry point — bounds check, upfront
validation, then per-table mapping in order. -/
def map (tables : List TableAst) (options : MappingOptions) :
    Except EmitErr (List MappedTable) := do
  if tables.length > 1000 then .error (.invalid "Too many tables")
  else
    let () ← validateTableArray tables
    tables.mapM fun t => mapSingleTable t tables options

end Emitter

/-! ## JSON Schema renderer (`json-schema.ts`)

The renderer builds a JSON document and serializes it with `JSON.stringify`;
the embedding models the document value handed to stringification. -/

/-- A JSON value (the fragment used by the schema renderer). -/
inductive Json where
  | str (s : String)
  | bool (b : Bool)
  | arr (elems : List Json)
  | obj (fields : List (String × Json))

/-- The JS `\w` word-character class (for `\b` boundaries). -/
def wordChar (c : Char) : Bool :=
  ('a' ≤ c && c ≤ 'z') || ('A' ≤ c && c ≤ 'Z') || ('0' ≤ c && c ≤ '9') || c == '_'

/-- `boundary` at the start of a match of a word-initial pattern. -/
def boundaryBefore : Option Char → Bool
  | none => true
  | some p => !wordChar p

/-- `boundary` after the end of a match of a word-final pattern. -/
def boundaryAfter : List Char → Bool
  | [] => true
  | c :: _ => !wordChar c

/-- An unanchored `/\bword\b/.test(s)` for a pattern made of word characters. -/
def wordTestAux (w : List Char) (prev : Option Char) : List Char → Bool
  | [] => false
  | c :: rest =>
    (boundaryBefore prev && listIsPre w (c :: rest) &&
      boundaryAfter ((c :: rest).drop w.length)) ||
    wordTestAux w (some c) rest

/-- `/\bw\b/.test(s)`. -/
def wordTest (w : String) (s : String) : Bool :=
  wordTestAux w.data none s.data

namespace JsonSchema

mutual
/-- `jsonSchemaForType`: schema for one resolved type; `resolvedTs` is the
column's already-rendered TypeScript type (used for the `bigint` / `Date`
representation tests). Missing or non-type arguments go through
`toTypeOrUnknown`, whose `Unknown` leaf renders as the default empty schema. -/
def jsonSchemaForType (type : TypeAst) (resolvedTs : String) : Json :=
  match type with
  | .mk "Nullable" args =>
    let s := match args with
      | .type t1 :: _ => jsonSchemaForType t1 resolvedTs
      | _ => Json.obj []
    Json.obj [("anyOf", Json.arr [s, Json.obj [("type", Json.str "null")]])]
  | .mk "LowCardinality" args =>
    (match args with
      | .type t1 :: _ => jsonSchemaForType t1 resolvedTs
      | _ => Json.obj [])
  | .mk "Array" args =>
    Json.obj [("type", Json.str "array"),
              ("items", match args with
                | .type t1 :: _ => jsonSchemaForType t1 resolvedTs
                | _ => Json.obj [])]
  | .mk "Tuple" args =>
    Json.obj [("type", Json.str "object"),
              ("properties", Json.obj (jsonSchemaTupleProps args 0 resolvedTs)),
              ("additionalProperties", Json.bool false)]
  | .mk "Map" args =>
    Json.obj [("type", Json.str "object"),
              ("additionalProperties", match args with
                | _ :: .type t2 :: _ => jsonSchemaForType t2 resolvedTs
                | _ => Json.obj [])]
  | .mk "Enum8" args | .mk "Enum16" args =>
    let keys := args.filterMap fun a =>
      match a with
      | .enum k _ => some k
      | _ => none
    if keys.length > 0 then
      Json.obj [("type", Json.str "string"), ("enum", Json.arr (keys.map Json.str))]
    else Json.obj [("type", Json.str "string")]
  | .mk "Decimal" _ => Json.obj [("type", Json.str "string")]
  | .mk "Float32" _ | .mk "Float64" _ | .mk "Int8" _ | .mk "Int16" _
  | .mk "Int32" _ | .mk "UInt8" _ | .mk "UInt16" _ | .mk "UInt32" _ =>
    Json.obj [("type", Json.str "number")]
  | .mk "Int64" _ | .mk "UInt64" _ =>
    if wordTest "bigint" resolvedTs then Json.obj [("type", Json.str "integer")]
    else Json.obj [("type", Json.str "string")]
  | .mk "String" _ | .mk "UUID" _ | .mk "FixedString" _ | .mk "IPv4" _
  | .mk "IPv6" _ => Json.obj [("type", Json.str "string")]
  | .mk "Date" _ | .mk "DateTime" _ | .mk "DateTime64" _ =>
    if wordTest "Date" resolvedTs then
      Json.obj [("type", Json.str "string"), ("format", Json.str "date-time")]
    else Json.obj [("type", Json.str "string")]
  | .mk _ _ => Json.obj []
termination_by sizeOf type

/-- The `Tuple` property walk: `_i` keyed schemas, in order. -/
def jsonSchemaTupleProps (args : List TypeArg) (i : Nat) (resolvedTs : String) :
    List (String × Json) :=
  match args with
  | [] => []
  | a :: rest =>
    ("_" ++ toString i,
      match a with
      | .type ta => jsonSchemaForType ta resolvedTs
      | _ => Json.obj []) :: jsonSchemaTupleProps rest (i + 1) resolvedTs
termination_by sizeOf args
end

/-- `emitJsonSchema` (`json-schema.ts`): a single root schema document for the
first table only (`{}` when there are no tables), with `title`, `properties`
in column order, and a `required` list of all column names. -/
def emitJsonSchema (mapped : List MappedTable) : Json :=
  match mapped with
  | [] => Json.obj []
  | table :: _ =>
    Json.obj
      [("$schema", Json.str "https://json-schema.org/draft/2020-12/schema"),
       ("title", Json.str table.interfaceName),
       ("type", Json.str "object"),
       ("properties", Json.obj (table.columns.map fun c =>
          (c.name, jsonSchemaForType c.typeAst c.tsType))),
       ("additionalProperties", Json.bool false),
       ("required", Json.arr (table.columns.map fun c => Json.str c.name))]

/-- Field lookup in a JSON object (first occurrence). -/
def getField (j : Json) (key : String) : Option Json :=
  match j with
  | .obj fields => (fields.find? fun p => p.1 = key).map (·.2)
  | _ => none

end JsonSchema

/-! ## Statement splitting, filtering and the parse driver (`index.ts`) -/

/-- List-of-characters version of `Array.prototype.join`. -/
def joinSepL (sep : List Char) : List (List Char) → List Char
  | [] => []
  | [x] => x
  | x :: xs => x ++ sep ++ joinSepL sep xs

/-- Match a literal, returning the remainder. -/
def matchLit (w : List Char) (l : List Char) : Option (List Char) :=
  if listIsPre w l then some (l.drop w.length) else none

/-- Match `\s+` greedily (at least one), returning the remainder. -/
def wsRun1 : List Char → Option (List Char)
  | [] => none
  | c :: r => if jsWs c then some (r.dropWhile jsWs) else none

/-- `/^create\s+materialized\s+view/.test(head)`. -/
def matchesCreateMVHead (l : List Char) : Bool :=
  (do
    let l ← matchLit "create".data l
    let l ← wsRun1 l
    let l ← matchLit "materialized".data l
    let l ← wsRun1 l
    let _ ← matchLit "view".data l
    pure ()).isSome

/-- `/^create\s+view/.test(head)`. -/
def matchesCreateViewHead (l : List Char) : Bool :=
  (do
    let l ← matchLit "create".data l
    let l ← wsRun1 l
    let _ ← matchLit "view".data l
    pure ()).isSome

/-- `/(\s|\))kw\s+/.test(s)`: somewhere, whitespace or `)` followed by the
keyword followed by whitespace. -/
def seqKwTest (kw : List Char) : List Char → Bool
  | [] => false
  | c :: rest =>
    ((jsWs c || c == ')') &&
      (match matchLit kw rest with
        | some (d :: _) => jsWs d
        | _ => false)) ||
    seqKwTest kw rest

/-- The per-statement keep test of `filterStatements`: drop `CREATE
MATERIALIZED VIEW` statements with a ` to ` / ` for ` routing clause, and all
`CREATE VIEW` statements. -/
def keepPred (l : List Char) : Bool :=
  let head := (l.take 200).map lowerChar
  let lower := l.map lowerChar
  !(matchesCreateMVHead head && (seqKwTest "to".data lower || seqKwTest "for".data lower)) &&
  !(matchesCreateViewHead head)

/-- Core of `filterStatements` on character lists: split on `;`, trim, drop
empties, filter, and re-join with `;\n` plus a trailing `;`. -/
def filterCore (l : List Char) : List Char :=
  let parts := ((splitOnSemi l).map trimL).filter (· ≠ [])
  let kept := parts.filter keepPred
  if kept = [] then [] else joinSepL [';', '\n'] kept ++ [';']

/-- `filterStatements` (`index.ts`). -/
def filterStatements (input : String) : String := ⟨filterCore input.data⟩

/-- `splitStatements` (`index.ts`): split on `;`, trim, drop empties,
re-terminate each statement with `;`. -/
def splitStatements (input : String) : List String :=
  (((splitOnSemi input.data).map trimL).filter (· ≠ [])).map fun l => ⟨l ++ [';']⟩

namespace Index

/-- `parse` (`index.ts`): split and filter the input, then parse statements
one by one with the skip-on-failure `try/catch`, concatenating the parsed
tables in order. The per-statement parser is the imported `_parse`, taken
here as a parameter. -/
def parse (stmtParse : String → Except String (List TableAst)) (ddl : String) :
    List TableAst :=
  let parts := splitStatements (filterStatements ddl)
  if parts.length = 0 then []
  else
    parts.foldl
      (fun tables stmt =>
        match stmtParse stmt with
        | .ok arr => if arr.length > 0 then tables ++ arr else tables
        | .error _ => tables)
      []

end Index

/-! ## Tokenizer (`tokens.ts`) -/

/-- Token types of the DDL lexer. -/
inductive TokKind where
  | lineComment | blockComment | whiteSpace
  | lparen | rparen | comma | dot | eq | semi
  | createK | tableK | materializedK | viewK | ifK | notK | existsK
  | commentK | defaultK | codecK | partitionK | orderK | byK | engineK
  | asK | withK | selectK | fromK | toKw | forKw
  | stringLit | intLit | ident | unknownTok
deriving DecidableEq

/-- One lexed token: its type and matched text. -/
structure Tok where
  kind : TokKind
  image : String
deriving DecidableEq

/-- The lexer's whitespace class `[ \t\n\r\f]` (narrower than JS `\s`). -/
def lexWsChar (c : Char) : Bool :=
  c == ' ' || c == '\t' || c == '\n' || c == '\r' || c == '\x0c'

/-- Length of the maximal run of characters satisfying `p`. -/
def takeWhileLen (p : Char → Bool) : List Char → Nat
  | [] => 0
  | c :: r => if p c then takeWhileLen p r + 1 else 0

/-- The line-comment rule: two dashes then anything up to a newline. -/
def matchLineComment (_prev : Option Char) : List Char → Option Nat
  | '-' :: '-' :: r => some (2 + takeWhileLen (fun c => c != '\n') r)
  | _ => none

/-- Scan for the first star-slash pair terminating a lazy `[\s\S]*?` body. -/
def findBlockClose : List Char → Option Nat
  | '*' :: '/' :: _ => some 2
  | _ :: r => (findBlockClose r).map (· + 1)
  | [] => none

/-- The block-comment rule: `(star-slash)`-terminated, lazy body. -/
def matchBlockComment (_prev : Option Char) : List Char → Option Nat
  | '/' :: '*' :: r => (findBlockClose r).map (2 + ·)
  | _ => none

/-- `/[ \t\n\r\f]+/`. -/
def matchWsRule (_prev : Option Char) (l : List Char) : Option Nat :=
  let n := takeWhileLen lexWsChar l
  if n = 0 then none else some n

/-- A single-character punctuation pattern. -/
def matchCharRule (c0 : Char) (_prev : Option Char) : List Char → Option Nat
  | c :: _ => if c = c0 then some 1 else none
  | [] => none

/-- Case-insensitive literal prefix test (ASCII). -/
def ciIsPre : List Char → List Char → Bool
  | [], _ => true
  | _ :: _, [] => false
  | a :: as, b :: bs => lowerChar a == lowerChar b && ciIsPre as bs

/-- `/\bWORD\b/i` applied at the current position (keyword rules). -/
def matchKeywordRule (w : List Char) (prev : Option Char) (l : List Char) :
    Option Nat :=
  if boundaryBefore prev && ciIsPre w l && boundaryAfter (l.drop w.length) then
    some w.length
  else none

/-- Can `c` follow a backslash inside a string literal (`\\.` — `.` excludes
line terminators)? -/
def dotChar (c : Char) : Bool :=
  !(c == '\n' || c == '\r' || c == '\u2028' || c == '\u2029')

/-- The body scan of `/'(?:[^'\\]|\\.)*'/` after the opening quote. -/
def strLitAux : List Char → Option Nat
  | '\'' :: _ => some 1
  | '\\' :: c :: r => if dotChar c then (strLitAux r).map (2 + ·) else none
  | '\\' :: [] => none
  | _ :: r => (strLitAux r).map (1 + ·)
  | [] => none

/-- `/'(?:[^'\\]|\\.)*'/`. -/
def matchStringLit (_prev : Option Char) : List Char → Option Nat
  | '\'' :: r => (strLitAux r).map (1 + ·)
  | _ => none

/-- ASCII digit test. -/
def digitChar (c : Char) : Bool := '0' ≤ c && c ≤ '9'

/-- `/\d+/`. -/
def matchIntRule (_prev : Option Char) (l : List Char) : Option Nat :=
  let n := takeWhileLen digitChar l
  if n = 0 then none else some n

/-- `[A-Za-z_]`. -/
def identStartChar (c : Char) : Bool :=
  ('a' ≤ c && c ≤ 'z') || ('A' ≤ c && c ≤ 'Z') || c == '_'

/-- `/[A-Za-z_][A-Za-z0-9_]*/`. -/
def matchIdentRule (_prev : Option Char) : List Char → Option Nat
  | c :: r => if identStartChar c then some (1 + takeWhileLen wordChar r) else none
  | [] => none

/-- `/[^\s]/` — the catch-all `Unknown` rule. -/
def matchUnknownRule (_prev : Option Char) : List Char → Option Nat
  | c :: _ => if jsWs c then none else some 1
  | [] => none

/-- One lexer rule: token type, skipped flag, matcher. -/
structure LexRule where
  kind : TokKind
  skipped : Bool
  matchFn : Option Char → List Char → Option Nat

/-- The `ddlLexer` rule list, in declaration order (first match wins). -/
def ddlRules : List LexRule :=
  [⟨.lineComment, true, matchLineComment⟩,
   ⟨.blockComment, true, matchBlockComment⟩,
   ⟨.whiteSpace, true, matchWsRule⟩,
   ⟨.lparen, false, matchCharRule '('⟩,
   ⟨.rparen, false, matchCharRule ')'⟩,
   ⟨.comma, false, matchCharRule ','⟩,
   ⟨.dot, false, matchCharRule '.'⟩,
   ⟨.eq, false, matchCharRule '='⟩,
   ⟨.semi, true, matchCharRule ';'⟩,
   ⟨.createK, false, matchKeywordRule "create".data⟩,
   ⟨.tableK, false, matchKeywordRule "table".data⟩,
   ⟨.materializedK, false, matchKeywordRule "materialized".data⟩,
   ⟨.viewK, false, matchKeywordRule "view".data⟩,
   ⟨.ifK, false, matchKeywordRule "if".data⟩,
   ⟨.notK, false, matchKeywordRule "not".data⟩,
   ⟨.existsK, false, matchKeywordRule "exists".data⟩,
   ⟨.commentK, false, matchKeywordRule "comment".data⟩,
   ⟨.defaultK, false, matchKeywordRule "default".data⟩,
   ⟨.codecK, false, matchKeywordRule "codec".data⟩,
   ⟨.partitionK, false, matchKeywordRule "partition".data⟩,
   ⟨.orderK, false, matchKeywordRule "order".data⟩,
   ⟨.byK, false, matchKeywordRule "by".data⟩,
   ⟨.engineK, false, matchKeywordRule "engine".data⟩,
   ⟨.asK, false, matchKeywordRule "as".data⟩,
   ⟨.withK, false, matchKeywordRule "with".data⟩,
   ⟨.selectK, false, matchKeywordRule "select".data⟩,
   ⟨.fromK, false, matchKeywordRule "from".data⟩,
   ⟨.toKw, false, matchKeywordRule "to".data⟩,
   ⟨.forKw, false, matchKeywordRule "for".data⟩,
   ⟨.stringLit, false, matchStringLit⟩,
   ⟨.intLit, false, matchIntRule⟩,
   ⟨.ident, false, matchIdentRule⟩,
   ⟨.unknownTok, true, matchUnknownRule⟩]

/-- First rule (in declaration order) matching at the current position. -/
def firstRuleMatch (prev : Option Char) (l : List Char) :
    Option (LexRule × Nat) :=
  ddlRules.findSome? fun r => (r.matchFn prev l).map (r, ·)

/-- Result of `Lexer.tokenize`: the token stream plus lexing errors
(positions of characters no rule matched; chevrotain records an error and
resumes one character later). -/
structure LexResult where
  tokens : List Tok
  errors : List Nat
deriving DecidableEq

/-- The tokenization loop. `fuel` bounds the recursion; every step consumes
at least one character, so `fuel = input length` never runs out. -/
def tokenizeAux : Nat → Option Char → List Char → Nat → LexResult
  | 0, _, _, _ => ⟨[], []⟩
  | _ + 1, _, [], _ => ⟨[], []⟩
  | fuel + 1, prev, c :: rest, pos =>
    match firstRuleMatch prev (c :: rest) with
    | some (rule, n) =>
      let consumed := (c :: rest).take n
      let remaining := (c :: rest).drop n
      let r := tokenizeAux fuel (consumed.getLast? <|> prev) remaining (pos + n)
      if rule.skipped then r
      else ⟨⟨rule.kind, ⟨consumed⟩⟩ :: r.tokens, r.errors⟩
    | none =>
      let r := tokenizeAux fuel (some c) rest (pos + 1)
      ⟨r.tokens, pos :: r.errors⟩

/-- `ddlLexer.tokenize`. -/
def ddlTokenize (s : String) : LexResult :=
  tokenizeAux s.data.length none s.data 0

/-! ## Parser state and qualified names (`parser.ts`) -/

namespace Parser

/-- `ParserState`: the explicit cursor over the flat token array. -/
structure ParserState where
  tokens : List Tok
  position : Nat
deriving DecidableEq

/-- `peekToken` with offset 0 (bounds-checked array access). -/
def peekToken (state : ParserState) (offset : Nat := 0) : Option Tok :=
  state.tokens[state.position + offset]?

/-- `tryMatch`: consume the next token when it has the expected type. -/
def tryMatch (state : ParserState) (tokenType : TokKind) : Bool × ParserState :=
  match peekToken state with
  | some t =>
    if t.kind = tokenType then (true, { state with position := state.position + 1 })
    else (false, state)
  | none => (false, state)

/-- `consumeToken`: consume the expected token or throw. -/
def consumeToken (state : ParserState) (tokenType : TokKind) (expected : String) :
    Except String (Tok × ParserState) :=
  match peekToken state with
  | some t =>
    if t.kind = tokenType then .ok (t, { state with position := state.position + 1 })
    else .error ("Expected " ++ expected)
  | none => .error ("Expected " ++ expected)

/-- `parseQualifiedName`: `Identifier ('.' Identifier)?` — when a dot is
present, only the second (final) component is returned. -/
def parseQualifiedName (state : ParserState) : Except String (String × ParserState) := do
  let (first, state1) ← consumeToken state .ident "identifier"
  let (dotted, state2) := tryMatch state1 .dot
  if dotted then do
    let (second, state3) ← consumeToken state2 .ident "identifier"
    pure (second.image, state3)
  else pure (first.image, state2)

end Parser

/-! ## Depth measures and shape predicates (specification side) -/

mutual
/-- Structural nesting depth of a `TypeAst` tree: a leaf counts 1, a node
counts one more than its deepest `TypeAst` argument anywhere in `args`. -/
def nestingDepth : TypeAst → Nat
  | .mk _ args => 1 + nestingDepthArgs args
termination_by t => sizeOf t

/-- Deepest `TypeAst` among a list of type arguments (0 when none). -/
def nestingDepthArgs : List TypeArg → Nat
  | [] => 0
  | a :: rest =>
    max (match a with
         | .type t => nestingDepth t
         | _ => 0)
        (nestingDepthArgs rest)
termination_by l => sizeOf l
end

mutual
/-- Depth of a `TypeAst` along the argument positions `mapTypeAstToTs`
actually traverses: first argument of `Nullable` / `LowCardinality` /
`Array`, second argument of `Map`, every argument of `Tuple`; a missing or
non-type argument counts as the synthetic `Unknown` leaf the code recurses
into. -/
def visitedDepth (t : TypeAst) : Nat :=
  match t with
  | .mk "Nullable" args => 1 + vdHead args
  | .mk "LowCardinality" args => 1 + vdHead args
  | .mk "Array" args => 1 + vdHead args
  | .mk "Map" args => 1 + vdSecond args
  | .mk "Tuple" args => 1 + vdList args
  | .mk _ _ => 1
termination_by sizeOf t

/-- Traversed depth through `toTypeOrUnknown args.head?`. -/
def vdHead : List TypeArg → Nat
  | .type t :: _ => visitedDepth t
  | _ => 1
termination_by l => sizeOf l

/-- Traversed depth through `toTypeOrUnknown args[1]?`. -/
def vdSecond : List TypeArg → Nat
  | _ :: .type t :: _ => visitedDepth t
  | _ => 1
termination_by l => sizeOf l

/-- Traversed depth of a `Tuple`'s arguments (0 when empty). -/
def vdList : List TypeArg → Nat
  | [] => 0
  | .type t :: rest => max (visitedDepth t) (vdList rest)
  | _ :: rest => max 1 (vdList rest)
termination_by l => sizeOf l
end

mutual
/-- Well-formedness along the traversed positions: every visited node has at
most 100 arguments and a non-empty name (the names on the dispatch branches
are literals, hence non-empty by construction). -/
def wfVisited (t : TypeAst) : Bool :=
  match t with
  | .mk "Nullable" args => Nat.ble args.length 100 && wfHead args
  | .mk "LowCardinality" args => Nat.ble args.length 100 && wfHead args
  | .mk "Array" args => Nat.ble args.length 100 && wfHead args
  | .mk "Map" args => Nat.ble args.length 100 && wfSecond args
  | .mk "Tuple" args => Nat.ble args.length 100 && wfList args
  | .mk name args => !(name == "") && Nat.ble args.length 100
termination_by sizeOf t

/-- Well-formedness through `toTypeOrUnknown args.head?`. -/
def wfHead : List TypeArg → Bool
  | .type t :: _ => wfVisited t
  | _ => true
termination_by l => sizeOf l

/-- Well-formedness through `toTypeOrUnknown args[1]?`. -/
def wfSecond : List TypeArg → Bool
  | _ :: .type t :: _ => wfVisited t
  | _ => true
termination_by l => sizeOf l

/-- Well-formedness of a `Tuple`'s visited arguments. -/
def wfList : List TypeArg → Bool
  | [] => true
  | .type t :: rest => wfVisited t && wfList rest
  | _ :: rest => wfList rest
termination_by l => sizeOf l
end

/-- Does the rendered TypeScript type denote a union with `null` — i.e. end
in the `" | null"` the `Nullable` case appends? -/
def rendersNullable (s : String) : Prop := ∃ s0 : String, s = s0 ++ " | null"

/-- Is a rendered JSON schema the `anyOf [_, {type: null}]` union the
`Nullable` case produces? -/
def anyOfNullForm (j : Json) : Bool :=
  match j with
  | .obj [("anyOf", .arr [_, .obj [("type", .str "null")]])] => true
  | _ => false

/-- Does the type dispatch reach `Nullable` at the top level (through the
transparent `LowCardinality` wrapper)? -/
def nullableShape (t : TypeAst) : Bool :=
  match t with
  | .mk "Nullable" _ => true
  | .mk "LowCardinality" args =>
    (match args with
     | .type t1 :: _ => nullableShape t1
     | _ => false)
  | .mk _ _ => false
termination_by sizeOf t

/-! ## Concrete fixtures used by witnesses and counterexamples -/

/-- Default mapping options: `bigint` 64-bit integers, `string` decimals and
datetimes, no casing conversion, no plugins. -/
def optsD : MappingOptions := ⟨.bigint, .string, .string, false, false, []⟩

/-- Scenario C source table `base(id UInt64, name String, ts DateTime)`. -/
def baseC : TableAst :=
  { name := "base",
    columns := [⟨"id", .mk "UInt64" [], "UInt64", none, none⟩,
                ⟨"name", .mk "String" [], "String", none, none⟩,
                ⟨"ts", .mk "DateTime" [], "DateTime", none, none⟩],
    partitionBy := none, orderBy := none }

/-- Scenario C materialized view
`CREATE MATERIALIZED VIEW mv AS SELECT id, name AS label, ts FROM base`,
as the parser produces it (Unknown column types, recorded projection). -/
def mvC : TableAst :=
  { name := "mv",
    columns := [⟨"id", .mk "Unknown" [], "Unknown", none, none⟩,
                ⟨"label", .mk "Unknown" [], "Unknown", none, none⟩,
                ⟨"ts", .mk "Unknown" [], "Unknown", none, none⟩],
    partitionBy := none, orderBy := none,
    mvFrom := some "base",
    mvSelect := some [⟨"id", none, some "id", none⟩,
                      ⟨"name", some "label", some "name", none⟩,
                      ⟨"ts", none, some "ts", none⟩] }

/-! ## Claim C5 — the parse driver never propagates per-statement failures -/

/-- The statement-driver loop of `Index.parse`, summed up: the fold collects
exactly the successfully parsed tables, in order. -/
theorem parse_foldl_collect
    (stmtParse : String → Except String (List TableAst))
    (l : List String) (acc : List TableAst) :
    l.foldl
      (fun tables stmt =>
        match stmtParse stmt with
        | .ok arr => if arr.length > 0 then tables ++ arr else tables
        | .error _ => tables)
      acc
    = acc ++ l.flatMap (fun stmt =>
        match stmtParse stmt with
        | .ok arr => arr
        | .error _ => []) := by
  induction l generalizing acc with
  | nil => simp
  | cons s rest ih =>
    simp only [List.foldl_cons, List.flatMap_cons]
    cases h : stmtParse s with
    | ok arr =>
      by_cases harr : arr.length > 0
      · simp [harr, ih, List.append_assoc]
      · have : arr = [] := List.length_eq_zero.mp (by omega)
        simp [harr, ih, this]
    | error e => simp [ih]

/-- C5: `parse` never propagates a per-statement failure — for every input it
splits and filters the statements, parses them one by one, drops exactly the
statements whose parse fails while returning all other statements' tables in
order, and returns the empty sequence when no statements are kept. -/
theorem parse_skips_failed_statements :
    ∀ (stmtParse : String → Except String (List TableAst)) (ddl : String),
      Index.parse stmtParse ddl =
        (splitStatements (filterStatements ddl)).flatMap
          (fun stmt =>
            match stmtParse stmt with
            | .ok arr => arr
            | .error _ => []) ∧
      (splitStatements (filterStatements ddl) = [] →
        Index.parse stmtParse ddl = []) := by
  intro stmtParse ddl
  constructor
  · show Index.parse stmtParse ddl = _
    unfold Index.parse
    by_cases h : (splitStatements (filterStatements ddl)).length = 0
    · have : splitStatements (filterStatements ddl) = [] :=
        List.length_eq_zero.mp h
      simp [h, this]
    · simp only [h, if_false]
      simpa using parse_foldl_collect stmtParse (splitStatements (filterStatements ddl)) []
  · intro h
    unfold Index.parse
    simp [h]

/-- C5 witness: on empty input nothing is kept and `parse` returns `[]`. -/
theorem parse_skips_failed_statements_witness :
    Index.parse (fun _ => .ok []) "" = [] :=
  (parse_skips_failed_statements (fun _ => .ok []) "").2 rfl

/-! ## Claim C7 — one JSON-Schema document per table? -/

/-- A first concrete mapped table. -/
def t1C7 : MappedTable :=
  ⟨"T1", [⟨"a", "number", "UInt8", .mk "UInt8" [], none⟩], ⟨none, none⟩⟩

/-- A second, different concrete mapped table. -/
def t2C7 : MappedTable :=
  ⟨"T2", [⟨"b", "string", "String", .mk "String" [], none⟩], ⟨none, none⟩⟩

/-- C7 counterexample: with two input tables the renderer does **not** emit a
document per table — the output is identical to the single-table output and
describes only the first table (`title` is `T1`; `T2` appears nowhere). -/
theorem emitJsonSchema_ignores_second_table :
    JsonSchema.emitJsonSchema [t1C7, t2C7] = JsonSchema.emitJsonSchema [t1C7] ∧
    JsonSchema.getField (JsonSchema.emitJsonSchema [t1C7, t2C7]) "title" =
      some (.str "T1") ∧
    JsonSchema.getField (JsonSchema.emitJsonSchema [t1C7, t2C7]) "required" =
      some (.arr [.str "a"]) :=
  ⟨rfl, rfl, rfl⟩

/-- C7 amended: the renderer emits a single root schema document for the
*first* input table only (`{}` with no tables); that document's `required`
list contains exactly the first table's column names in declaration order. -/
theorem emitJsonSchema_first_table_required :
    JsonSchema.emitJsonSchema [] = Json.obj [] ∧
    ∀ (t : MappedTable) (rest : List MappedTable),
      JsonSchema.emitJsonSchema (t :: rest) = JsonSchema.emitJsonSchema [t] ∧
      JsonSchema.getField (JsonSchema.emitJsonSchema (t :: rest)) "required" =
        some (.arr (t.columns.map fun c => .str c.name)) := by
  refine ⟨rfl, fun t rest => ⟨rfl, ?_⟩⟩
  simp [JsonSchema.emitJsonSchema, JsonSchema.getField]

/-! ## Claim C10 — qualified names keep only the final component -/

/-- C10: `parseQualifiedName` on `a . b` records only the final component
`b` (consuming all three tokens); with no following dot it records the single
identifier. Declared table names and a materialized view's FROM source both
go through this function, so resolution looks up unqualified names only. -/
theorem parseQualifiedName_keeps_last_component :
    (∀ (a b : String) (rest : List Tok),
      Parser.parseQualifiedName ⟨⟨.ident, a⟩ :: ⟨.dot, "."⟩ :: ⟨.ident, b⟩ :: rest, 0⟩ =
        .ok (b, ⟨⟨.ident, a⟩ :: ⟨.dot, "."⟩ :: ⟨.ident, b⟩ :: rest, 3⟩)) ∧
    (∀ (a : String) (next : Tok) (rest : List Tok), next.kind ≠ .dot →
      Parser.parseQualifiedName ⟨⟨.ident, a⟩ :: next :: rest, 0⟩ =
        .ok (a, ⟨⟨.ident, a⟩ :: next :: rest, 1⟩)) ∧
    (∀ a : String,
      Parser.parseQualifiedName ⟨[⟨.ident, a⟩], 0⟩ =
        .ok (a, ⟨[⟨.ident, a⟩], 1⟩)) := by
  refine ⟨fun a b rest => ?_, fun a next rest h => ?_, fun a => ?_⟩
  · simp [Parser.parseQualifiedName, Parser.consumeToken, Parser.peekToken,
      Parser.tryMatch, Except.bind, bind, pure, Except.pure]
  · simp [Parser.parseQualifiedName, Parser.consumeToken, Parser.peekToken,
      Parser.tryMatch, Except.bind, bind, pure, Except.pure, h]
  · simp [Parser.parseQualifiedName, Parser.consumeToken, Parser.peekToken,
      Parser.tryMatch, Except.bind, bind, pure, Except.pure]

/-- C10 witness: `db.events` records `events`; a lone identifier records
itself. -/
theorem parseQualifiedName_keeps_last_component_witness :
    Parser.parseQualifiedName ⟨[⟨.ident, "db"⟩, ⟨.dot, "."⟩, ⟨.ident, "events"⟩], 0⟩ =
      .ok ("events", ⟨[⟨.ident, "db"⟩, ⟨.dot, "."⟩, ⟨.ident, "events"⟩], 3⟩) ∧
    Parser.parseQualifiedName ⟨[⟨.ident, "events"⟩, ⟨.ident, "x"⟩], 0⟩ =
      .ok ("events", ⟨[⟨.ident, "events"⟩, ⟨.ident, "x"⟩], 1⟩) :=
  ⟨parseQualifiedName_keeps_last_component.1 "db" "events" [],
   parseQualifiedName_keeps_last_component.2.1 "events" ⟨.ident, "x"⟩ [] (by decide)⟩

/-! ## Claim C1 — direct-source resolution of materialized-view columns -/

/-- C1: for an `Unknown` column whose owning table has a direct source table,
resolution looks the projection alias map up (alias → recorded source name,
defaulting to the column's own name), finds that column in the source table
(`findColumnByName`: exact match, then casing-normalized match) and adopts
its type verbatim; and on Scenario C, `mv.id` gets `base.id`'s `UInt64`,
`mv.label` gets `base.name`'s `String` via the alias, `mv.ts` gets
`base.ts`'s `DateTime`. -/
theorem mv_direct_source_resolution :
    (∀ (column : ColumnAst) (context : Emitter.MappingContext)
       (options : MappingOptions) (src : TableAst) (sc : ColumnAst) (ts : String),
      column.type.name = "Unknown" →
      context.sourceTable = some src →
      Emitter.findColumnByName src
        (Emitter.sourceNameFor context.aliasMap column.name) = .ok (some sc) →
      Emitter.mapTypeAstToTs sc.type options 0 = .ok ts →
      Emitter.mapSingleColumn column context options =
        .ok ⟨if options.camelCase then toCamelCase column.name else column.name,
             ts, trimStr sc.rawType, sc.type, column.comment⟩) ∧
    (Emitter.map [baseC, mvC] optsD).map
        (fun l => l.map fun t => t.columns.map (·.typeAst)) =
      .ok [[.mk "UInt64" [], .mk "String" [], .mk "DateTime" []],
           [.mk "UInt64" [], .mk "String" [], .mk "DateTime" []]] := by
  constructor
  · intro column context options src sc ts h1 h2 h3 h4
    simp [Emitter.mapSingleColumn, Emitter.resolveUnknownType,
      Emitter.resolveFromSourceTable, h1, h2, h3, h4,
      Except.bind, bind, pure, Except.pure]
  · rfl

/-- C1 witness: the Scenario C `label` column, resolved through the alias map
to `base.name` and typed `String`. -/
theorem mv_direct_source_resolution_witness :
    Emitter.mapSingleColumn ⟨"label", .mk "Unknown" [], "Unknown", none, none⟩
      ⟨some baseC, [("label", "name")], [], [], none⟩ optsD =
      .ok ⟨"label", "string", "String", .mk "String" [], none⟩ :=
  mv_direct_source_resolution.1
    ⟨"label", .mk "Unknown" [], "Unknown", none, none⟩
    ⟨some baseC, [("label", "name")], [], [], none⟩ optsD baseC
    ⟨"name", .mk "String" [], "String", none, none⟩ "string" rfl rfl rfl rfl

/-! ## Claim C3 — is the `Unknown` placeholder always eliminated? -/

/-- A materialized view whose projection references a column that its direct
source table does not have. -/
def mvBad : TableAst :=
  { name := "mv2",
    columns := [⟨"x", .mk "Unknown" [], "Unknown", none, none⟩],
    partitionBy := none, orderBy := none,
    mvFrom := some "base",
    mvSelect := some [⟨"x", none, some "x", none⟩] }

/-- C3 counterexample: `base` exists but has no column `x`, so the
direct-source path finds nothing and the resolved type keeps the placeholder
name `Unknown` (mapped to the TypeScript `unknown`), not the textual
fallback. -/
theorem resolution_keeps_unknown_counterexample :
    (Emitter.map [baseC, mvBad] optsD).map
        (fun l => l.map fun t => t.columns.map fun c => (c.typeAst.name, c.tsType)) =
      .ok [[("UInt64", "bigint"), ("String", "string"), ("DateTime", "string")],
           [("Unknown", "unknown")]] := rfl


/-- Partial evaluation of `mapTypeAstToTs` at the `String` leaf: a plugin may
override the representation, otherwise `"string"`. -/
theorem mapString_eval (options : MappingOptions) :
    Emitter.mapTypeAstToTs (.mk "String" []) options 0 =
      match (options.plugins.take 50).findSome? (fun p => p (.mk "String" [])) with
      | some s => .ok s
      | none => .ok "string" := rfl

/-- Partial evaluation of `mapTypeAstToTs` at the `Unknown` leaf with
`failOnUnknown` disabled. -/
theorem mapUnknown_eval (options : MappingOptions) (h : options.failOnUnknown = false) :
    Emitter.mapTypeAstToTs (.mk "Unknown" []) options 0 =
      match (options.plugins.take 50).findSome? (fun p => p (.mk "Unknown" [])) with
      | some s => .ok s
      | none => .ok "unknown" := by
  cases hp : (options.plugins.take 50).findSome? (fun p => p (TypeAst.mk "Unknown" [])) with
  | some s =>
    show (match (options.plugins.take 50).findSome? (fun p => p (TypeAst.mk "Unknown" [])) with
      | some s => Except.ok s
      | none =>
        if options.failOnUnknown then Except.error (Emitter.EmitErr.unknownType "Unknown")
        else Except.ok "unknown") = _
    rw [hp]
  | none =>
    show (match (options.plugins.take 50).findSome? (fun p => p (TypeAst.mk "Unknown" [])) with
      | some s => Except.ok s
      | none =>
        if options.failOnUnknown then Except.error (Emitter.EmitErr.unknownType "Unknown")
        else Except.ok "unknown") = _
    rw [hp, h]
    simp

/-- C3 amended: an `Unknown` column of a table with no direct source table
and no projection record gets the textual fallback `String`; but when a
direct source table exists and lacks the looked-up column, the `Unknown`
placeholder persists in the output. -/
theorem resolution_fallback_amended :
    (∀ (column : ColumnAst) (context : Emitter.MappingContext)
       (options : MappingOptions),
      column.type.name = "Unknown" →
      context.sourceTable = none →
      Emitter.mapGet context.mvInfoMap column.name = none →
      ∃ mc, Emitter.mapSingleColumn column context options = .ok mc ∧
        mc.typeAst = .mk "String" [] ∧ mc.typeAst.name ≠ "Unknown") ∧
    (∀ (column : ColumnAst) (context : Emitter.MappingContext)
       (options : MappingOptions) (src : TableAst),
      column.type = .mk "Unknown" [] →
      options.failOnUnknown = false →
      context.sourceTable = some src →
      Emitter.findColumnByName src
        (Emitter.sourceNameFor context.aliasMap column.name) = .ok none →
      ∃ mc, Emitter.mapSingleColumn column context options = .ok mc ∧
        mc.typeAst = column.type) := by
  constructor
  · intro column context options h1 h2 h3
    have hres : Emitter.resolveUnknownType column context =
        .ok (some (.mk "String" [], "String")) := by
      simp [Emitter.resolveUnknownType, h2, Emitter.resolveFromCTE, h3, pure,
        Except.pure]
    have hms : Emitter.mapSingleColumn column context options =
        (match (options.plugins.take 50).findSome? (fun p => p (.mk "String" [])) with
          | some s => .ok ⟨if options.camelCase then toCamelCase column.name else column.name,
              s, "String", .mk "String" [], column.comment⟩
          | none => .ok ⟨if options.camelCase then toCamelCase column.name else column.name,
              "string", "String", .mk "String" [], column.comment⟩) := by
      simp only [Emitter.mapSingleColumn, h1, if_pos, hres, Except.bind, bind, pure,
        Except.pure, mapString_eval]
      cases (options.plugins.take 50).findSome? (fun p => p (TypeAst.mk "String" [])) with
      | some s => rfl
      | none => rfl
    cases hp : (options.plugins.take 50).findSome? (fun p => p (TypeAst.mk "String" [])) with
    | some s =>
      rw [hp] at hms
      exact ⟨_, hms, rfl, by simp [TypeAst.name]⟩
    | none =>
      rw [hp] at hms
      exact ⟨_, hms, rfl, by simp [TypeAst.name]⟩
  · intro column context options src h1 h2 h3 h4
    have h1n : column.type.name = "Unknown" := by rw [h1]; rfl
    have hres : Emitter.resolveUnknownType column context = .ok none := by
      simp [Emitter.resolveUnknownType, h3, Emitter.resolveFromSourceTable, h4,
        Except.bind, bind, pure, Except.pure]
    have hms : Emitter.mapSingleColumn column context options =
        (match (options.plugins.take 50).findSome? (fun p => p (.mk "Unknown" [])) with
          | some s => .ok ⟨if options.camelCase then toCamelCase column.name else column.name,
              s, trimStr column.rawType, column.type, column.comment⟩
          | none => .ok ⟨if options.camelCase then toCamelCase column.name else column.name,
              "unknown", trimStr column.rawType, column.type, column.comment⟩) := by
      simp only [Emitter.mapSingleColumn, h1n, if_pos, hres, Except.bind, bind, pure,
        Except.pure]
      rw [show Emitter.mapTypeAstToTs column.type options =
          Emitter.mapTypeAstToTs (.mk "Unknown" []) options from by rw [h1]]
      rw [mapUnknown_eval options h2]
      cases (options.plugins.take 50).findSome? (fun p => p (TypeAst.mk "Unknown" [])) with
      | some s => rfl
      | none => rfl
    cases hp : (options.plugins.take 50).findSome? (fun p => p (TypeAst.mk "Unknown" [])) with
    | some s => rw [hp] at hms; exact ⟨_, hms, rfl⟩
    | none => rw [hp] at hms; exact ⟨_, hms, rfl⟩

/-- C3 amended witness: a no-source, no-record column falls back to
`String`; a source-table miss keeps the `Unknown` placeholder. -/
theorem resolution_fallback_amended_witness :
    (∃ mc, Emitter.mapSingleColumn ⟨"y", .mk "Unknown" [], "Unknown", none, none⟩
        ⟨none, [], [], [], none⟩ optsD = .ok mc ∧
      mc.typeAst = .mk "String" [] ∧ mc.typeAst.name ≠ "Unknown") ∧
    (∃ mc, Emitter.mapSingleColumn ⟨"x", .mk "Unknown" [], "Unknown", none, none⟩
        ⟨some baseC, [], [], [], none⟩ optsD = .ok mc ∧
      mc.typeAst = .mk "Unknown" []) :=
  ⟨resolution_fallback_amended.1 ⟨"y", .mk "Unknown" [], "Unknown", none, none⟩
      ⟨none, [], [], [], none⟩ optsD rfl rfl rfl,
   resolution_fallback_amended.2 ⟨"x", .mk "Unknown" [], "Unknown", none, none⟩
      ⟨some baseC, [], [], [], none⟩ optsD baseC rfl rfl rfl rfl⟩

/-! ## Prefix-test infrastructure for the aggregate policy lemmas -/

/-- A successful prefix test splits the list. -/
theorem listIsPre_ex {p l : List Char} (h : listIsPre p l = true) :
    ∃ t, l = p ++ t := by
  induction p generalizing l with
  | nil => exact ⟨l, rfl⟩
  | cons a as ih =>
    cases l with
    | nil => simp [listIsPre] at h
    | cons b bs =>
      simp only [listIsPre, Bool.and_eq_true, beq_iff_eq] at h
      obtain ⟨hab, h2⟩ := h
      obtain ⟨t, rfl⟩ := ih h2
      exact ⟨t, by rw [hab]; simp⟩

/-- Every list is a prefix of itself extended. -/
theorem listIsPre_self_append (p t : List Char) : listIsPre p (p ++ t) = true := by
  induction p with
  | nil => rfl
  | cons a as ih => simp [listIsPre, ih]

/-- If `q` clashes with `p` within `p`'s length, `q` is not a prefix of any
extension of `p`. -/
theorem isPre_false_of_clash (q p t : List Char)
    (h : listIsPre (q.take p.length) p = false) : listIsPre q (p ++ t) = false := by
  induction q generalizing p with
  | nil => simp [listIsPre] at h
  | cons a as ih =>
    cases p with
    | nil => simp [listIsPre] at h
    | cons b bs =>
      simp only [List.length_cons, List.take_succ_cons, listIsPre,
        List.cons_append] at h ⊢
      cases hab : (a == b) with
      | false => simp [hab]
      | true =>
        simp only [hab, Bool.true_and] at h ⊢
        exact ih bs h

/-- A string starting with `p` differs from any string `p` is not a prefix
of. -/
theorem ne_lit_of_append {p t : List Char} {n m : String} (hn : n.data = p ++ t)
    (hm : listIsPre p m.data = false) : n ≠ m := by
  intro he
  subst he
  rw [hn, listIsPre_self_append] at hm
  exact Bool.noConfusion hm

/-! ## Claim C2 — the aggregate-function return-type policy -/

/-- Policy helper: any function name that normalizes to neither
`tostartofday` nor a numeric-aggregate prefix preserves a present base type
(both the state-preserving branch and the default branch return it). -/
theorem aggOther_base (f : String) (b : TypeAst)
    (h1 : trimStr (lowerStr f) ≠ "tostartofday")
    (h2 : Emitter.isNumericAggregate (trimStr (lowerStr f)) = false) :
    Emitter.resolveAggReturnType (some f) (some b) = some b := by
  by_cases hf : f = ""
  · subst hf
    simp [Emitter.resolveAggReturnType, jsTruthy]
  · simp only [Emitter.resolveAggReturnType, jsTruthy]
    have hft : (f != "") = true := by simpa using hf
    simp only [hft, Bool.not_true, Bool.false_eq_true, if_false, Option.getD]
    rw [if_neg h1]
    simp only [h2, Bool.false_eq_true, if_false]
    cases hst : Emitter.isStatePreservingAggregate (trimStr (lowerStr f)) <;> simp [hst]

/-- A materialized-view column and context where the final projection item
has **no** function name but a resolvable base type (`toFloat64` in the
named sub-query). -/
def colX : ColumnAst := ⟨"x", .mk "Unknown" [], "Unknown", none, none⟩

/-- Context for `colX`: no direct source table, a projection record with no
function, and a CTE record converting through `toFloat64`. -/
def ctxX : Emitter.MappingContext :=
  ⟨none, [], [("x", ⟨none, some "x"⟩)], [("x", ⟨some "toFloat64", some "v"⟩)], none⟩

/-- C2 counterexample: with no function name on the final projection item the
policy does **not** emit the textual fallback — the resolved base type
(`Float64` here) is adopted, so "absence of a function name yields the
textual fallback with the base type irrelevant" is false. -/
theorem resolveFromCTE_no_func_keeps_base :
    Emitter.resolveFromCTE colX ctxX = .ok (some (.mk "Float64" [], "Float64")) ∧
    "Float64" ≠ "String" := ⟨rfl, by decide⟩

/-- C2 amended: the aggregate-function return-type policy satisfies:
`tostartofday` → `DateTime`; `sum*`/`avg*`/`count*` → `Float64` regardless
of the base type; `anylast*`/`max*`/`min*`/`argmin*`/`argmax*` → exactly the
resolved base type (when one exists); absence of a function name → the
resolved base type when one exists and the textual fallback otherwise; any
other function name → the base type unchanged. -/
theorem resolveAggReturnType_policy :
    (∀ (f : String) (b : Option TypeAst),
      trimStr (lowerStr f) = "tostartofday" →
      Emitter.resolveAggReturnType (some f) b = some (.mk "DateTime" [])) ∧
    (∀ (f : String) (b : Option TypeAst),
      Emitter.isNumericAggregate (trimStr (lowerStr f)) = true →
      Emitter.resolveAggReturnType (some f) b = some (.mk "Float64" [])) ∧
    (∀ (f : String) (b : TypeAst),
      (strStarts (trimStr (lowerStr f)) "anylast" ||
       strStarts (trimStr (lowerStr f)) "max" ||
       strStarts (trimStr (lowerStr f)) "min" ||
       strStarts (trimStr (lowerStr f)) "argmin" ||
       strStarts (trimStr (lowerStr f)) "argmax") = true →
      Emitter.resolveAggReturnType (some f) (some b) = some b) ∧
    (∀ (column : ColumnAst) (context : Emitter.MappingContext)
       (info : Emitter.MvInfo) (bt : Option TypeAst),
      Emitter.mapGet context.mvInfoMap column.name = some info →
      jsTruthy info.func = false →
      Emitter.resolveFromCTEBase info context = .ok bt →
      Emitter.resolveFromCTE column context =
        .ok (some (match bt with
          | some bty => (bty, bty.name)
          | none => (.mk "String" [], "String")))) ∧
    (∀ (f : String) (b : TypeAst),
      trimStr (lowerStr f) ≠ "tostartofday" →
      Emitter.isNumericAggregate (trimStr (lowerStr f)) = false →
      Emitter.resolveAggReturnType (some f) (some b) = some b) := by
  refine ⟨?_, ?_, ?_, ?_, fun f b h1 h2 => aggOther_base f b h1 h2⟩
  · intro f b h
    have hf : f ≠ "" := by
      intro he
      subst he
      exact absurd h (by decide)
    simp only [Emitter.resolveAggReturnType, jsTruthy]
    have hft : (f != "") = true := by simpa using hf
    simp only [hft, Bool.not_true, Bool.false_eq_true, if_false, Option.getD]
    rw [if_pos h]
  · intro f b h
    have hne : trimStr (lowerStr f) ≠ "tostartofday" := by
      simp only [Emitter.isNumericAggregate, Bool.or_eq_true] at h
      rcases h with (hs | hs) | hs <;>
        · obtain ⟨t, hn⟩ := listIsPre_ex hs
          exact ne_lit_of_append hn (by decide)
    have hf : f ≠ "" := by
      intro he
      subst he
      exact absurd h (by decide)
    simp only [Emitter.resolveAggReturnType, jsTruthy]
    have hft : (f != "") = true := by simpa using hf
    simp only [hft, Bool.not_true, Bool.false_eq_true, if_false, Option.getD]
    rw [if_neg hne]
    simp only [h, if_true]
  · intro f b h
    simp only [Bool.or_eq_true] at h
    rcases h with (((hs | hs) | hs) | hs) | hs <;>
      · obtain ⟨t, hn⟩ := listIsPre_ex hs
        apply aggOther_base
        · exact ne_lit_of_append hn (by decide)
        · simp only [Emitter.isNumericAggregate, strStarts, hn]
          rw [isPre_false_of_clash _ _ _ (by decide),
            isPre_false_of_clash _ _ _ (by decide),
            isPre_false_of_clash _ _ _ (by decide)]
          rfl
  · intro column context info bt h1 h2 h3
    simp only [Emitter.resolveFromCTE, h1, h3, Except.bind, bind, pure, Except.pure]
    have hagg : Emitter.resolveAggReturnType info.func bt = bt := by
      simp [Emitter.resolveAggReturnType, h2]
    rw [hagg]
    cases bt with
    | some bty => rfl
    | none => simp [h2]

/-- C2 amended witness: `toStartOfDay` → `DateTime`; `sumState` → `Float64`
over a `UInt64` base; `maxState` preserves `UInt64`; an absent function name
with a resolvable base keeps it; `quantileState` (no listed prefix)
preserves the base. -/
theorem resolveAggReturnType_policy_witness :
    Emitter.resolveAggReturnType (some "toStartOfDay") (some (.mk "UInt64" [])) =
      some (.mk "DateTime" []) ∧
    Emitter.resolveAggReturnType (some "sumState") (some (.mk "UInt64" [])) =
      some (.mk "Float64" []) ∧
    Emitter.resolveAggReturnType (some "maxState") (some (.mk "UInt64" [])) =
      some (.mk "UInt64" []) ∧
    Emitter.resolveFromCTE colX ctxX = .ok (some (.mk "Float64" [], "Float64")) ∧
    Emitter.resolveAggReturnType (some "quantileState") (some (.mk "UInt64" [])) =
      some (.mk "UInt64" []) :=
  ⟨resolveAggReturnType_policy.1 "toStartOfDay" (some (.mk "UInt64" [])) (by decide),
   resolveAggReturnType_policy.2.1 "sumState" (some (.mk "UInt64" [])) (by decide),
   resolveAggReturnType_policy.2.2.1 "maxState" (.mk "UInt64" []) (by decide),
   resolveAggReturnType_policy.2.2.2.1 colX ctxX ⟨none, some "x"⟩
     (some (.mk "Float64" [])) rfl rfl rfl,
   resolveAggReturnType_policy.2.2.2.2 "quantileState" (.mk "UInt64" [])
     (by decide) (by decide)⟩

/-! ## Claim C8 — idempotence of the statement splitter/filter -/

/-- `splitOnSemi` never returns the empty list. -/
theorem splitOnSemi_ne_nil (l : List Char) : splitOnSemi l ≠ [] := by
  induction l with
  | nil => simp [splitOnSemi]
  | cons c rest ih =>
    by_cases hc : c = ';'
    · simp [splitOnSemi, hc]
    · simp only [splitOnSemi, hc, if_false]
      cases h : splitOnSemi rest with
      | nil => simp
      | cons a t => simp

/-- Segments produced by `splitOnSemi` contain no semicolon. -/
theorem splitOnSemi_no_semi (l : List Char) : ∀ u ∈ splitOnSemi l, ';' ∉ u := by
  induction l with
  | nil =>
    intro u hu
    simp [splitOnSemi] at hu
    simp [hu]
  | cons c rest ih =>
    intro u hu
    by_cases hc : c = ';'
    · simp only [splitOnSemi, hc, if_pos, List.mem_cons] at hu
      rcases hu with rfl | hu
      · simp
      · exact ih u hu
    · simp only [splitOnSemi, hc, if_false] at hu
      cases h : splitOnSemi rest with
      | nil => exact absurd h (splitOnSemi_ne_nil rest)
      | cons a t =>
        rw [h] at hu
        rcases List.mem_cons.mp hu with rfl | hu2
        · intro hmem
          rcases List.mem_cons.mp hmem with h1 | h2
          · exact hc h1.symm
          · exact ih a (h ▸ List.mem_cons_self a t) h2
        · exact ih u (h ▸ List.mem_cons_of_mem a hu2)

/-- Splitting a semicolon-free segment followed by `;` peels it off. -/
theorem splitOnSemi_append (a r : List Char) (ha : ';' ∉ a) :
    splitOnSemi (a ++ ';' :: r) = a :: splitOnSemi r := by
  induction a with
  | nil => simp [splitOnSemi]
  | cons c t ih =>
    have hc : c ≠ ';' := fun h => ha (by simp [h])
    have ht : ';' ∉ t := fun h => ha (List.mem_cons_of_mem c h)
    simp only [List.cons_append, splitOnSemi, hc, if_false]
    rw [show t.append (';' :: r) = t ++ ';' :: r from rfl, ih ht]

/-- `dropWhile` is idempotent. -/
theorem dropWhile_idem (p : Char → Bool) (l : List Char) :
    (l.dropWhile p).dropWhile p = l.dropWhile p := by
  induction l with
  | nil => rfl
  | cons c t ih =>
    by_cases hc : p c
    · simp [List.dropWhile_cons, hc, ih]
    · simp [List.dropWhile_cons, hc]

/-- `dropTrail` is idempotent. -/
theorem dropTrail_idem (p : Char → Bool) (l : List Char) :
    dropTrail p (dropTrail p l) = dropTrail p l := by
  simp [dropTrail, dropWhile_idem]

/-- The head of a `dropWhile` result fails the predicate. -/
theorem head_dropWhile (p : Char → Bool) (l : List Char) (c : Char) (t : List Char)
    (h : l.dropWhile p = c :: t) : p c = false := by
  induction l with
  | nil => simp [List.dropWhile] at h
  | cons a r ih =>
    by_cases ha : p a
    · rw [List.dropWhile_cons_of_pos ha] at h
      exact ih h
    · rw [List.dropWhile_cons_of_neg ha] at h
      cases h
      simpa using ha

/-- `dropTrail` keeps a prefix of its input. -/
theorem dropTrail_isPre (p : Char → Bool) (l : List Char) :
    ∃ t, l = dropTrail p l ++ t := by
  refine ⟨(l.reverse.takeWhile p).reverse, ?_⟩
  have h2 := congrArg List.reverse
    (List.takeWhile_append_dropWhile (p := p) (l := l.reverse))
  rw [List.reverse_append, List.reverse_reverse] at h2
  simp only [dropTrail]
  exact h2.symm

/-- JS `trim` is idempotent. -/
theorem trimL_idem (l : List Char) : trimL (trimL l) = trimL l := by
  have h1 : (trimL l).dropWhile jsWs = trimL l := by
    cases h : trimL l with
    | nil => simp
    | cons c t =>
      have hc : jsWs c = false := by
        unfold trimL at h
        obtain ⟨u, hu⟩ := dropTrail_isPre jsWs (l.dropWhile jsWs)
        rw [h] at hu
        cases hd : l.dropWhile jsWs with
        | nil => rw [hd] at hu; simp at hu
        | cons d r =>
          rw [hd] at hu
          have : d = c := by
            have := congrArg List.head? hu
            simpa using this
          exact this ▸ head_dropWhile jsWs l d r hd
      rw [List.dropWhile_cons_of_neg (by simp [hc])]
  show dropTrail jsWs ((trimL l).dropWhile jsWs) = trimL l
  rw [h1]
  show dropTrail jsWs (dropTrail jsWs (l.dropWhile jsWs)) = trimL l
  rw [dropTrail_idem]
  rfl

/-- `trimL` introduces no new characters. -/
theorem mem_of_mem_trimL {c : Char} {l : List Char} (h : c ∈ trimL l) : c ∈ l := by
  unfold trimL dropTrail at h
  have h1 : c ∈ (l.dropWhile jsWs).reverse.dropWhile jsWs := by simpa using h
  have h2 : c ∈ (l.dropWhile jsWs).reverse :=
    ((l.dropWhile jsWs).reverse.dropWhile_sublist jsWs).mem h1
  have h3 : c ∈ l.dropWhile jsWs := by simpa using h2
  exact (l.dropWhile_sublist jsWs).mem h3

/-- Trimming absorbs a leading newline. -/
theorem trimL_cons_nl (l : List Char) : trimL ('\n' :: l) = trimL l := by
  unfold trimL
  rw [List.dropWhile_cons_of_pos (by simp [jsWs])]

/-- A leading newline disappears after re-splitting and trimming. -/
theorem splitOnSemi_nl_trim (z : List Char) :
    (splitOnSemi ('\n' :: z)).map trimL = (splitOnSemi z).map trimL := by
  cases h : splitOnSemi z with
  | nil => exact absurd h (splitOnSemi_ne_nil z)
  | cons a t =>
    have h2 : splitOnSemi ('\n' :: z) = ('\n' :: a) :: t := by
      simp only [splitOnSemi, h]
      rw [if_neg (by decide)]
    simp [h2, h, trimL_cons_nl]

/-- Re-splitting the joined kept statements recovers them: each statement is
non-empty, trimmed, and semicolon-free. -/
theorem resplit (kept : List (List Char))
    (hsemi : ∀ u ∈ kept, ';' ∉ u)
    (htrim : ∀ u ∈ kept, trimL u = u)
    (hnil : ∀ u ∈ kept, u ≠ []) (hne : kept ≠ []) :
    ((splitOnSemi (joinSepL [';', '\n'] kept ++ [';'])).map trimL).filter (· ≠ []) =
      kept := by
  induction kept with
  | nil => exact absurd rfl hne
  | cons x rest ih =>
    cases rest with
    | nil =>
      have hx : ';' ∉ x := hsemi x (by simp)
      rw [show joinSepL [';', '\n'] [x] = x from rfl]
      rw [splitOnSemi_append x [] hx]
      rw [show splitOnSemi [] = [[]] from rfl]
      simp only [List.map_cons, List.map_nil, htrim x (by simp)]
      simp [List.filter, hnil x (by simp), trimL, dropTrail]
    | cons y rest2 =>
      have hx : ';' ∉ x := hsemi x (by simp)
      have hjoin : joinSepL [';', '\n'] (x :: y :: rest2) ++ [';'] =
          x ++ ';' :: ('\n' :: (joinSepL [';', '\n'] (y :: rest2) ++ [';'])) := by
        show (x ++ [';', '\n'] ++ joinSepL [';', '\n'] (y :: rest2)) ++ [';'] = _
        simp
      rw [hjoin, splitOnSemi_append x _ hx]
      simp only [List.map_cons, htrim x (by simp)]
      rw [show ((x :: (splitOnSemi ('\n' :: (joinSepL [';', '\n'] (y :: rest2) ++ [';']))).map trimL).filter (· ≠ [])) =
        x :: ((splitOnSemi ('\n' :: (joinSepL [';', '\n'] (y :: rest2) ++ [';']))).map trimL).filter (· ≠ []) from by
          simp [List.filter, hnil x (by simp)]]
      rw [splitOnSemi_nl_trim]
      rw [ih (fun u hu => hsemi u (by simp [hu])) (fun u hu => htrim u (by simp [hu]))
        (fun u hu => hnil u (by simp [hu])) (by simp)]

/-- The filtering pass is idempotent at the character-list level. -/
theorem filterCore_idem (l : List Char) : filterCore (filterCore l) = filterCore l := by
  have hfc : filterCore l =
      if (((splitOnSemi l).map trimL).filter (· ≠ [])).filter keepPred = [] then []
      else joinSepL [';', '\n']
        ((((splitOnSemi l).map trimL).filter (· ≠ [])).filter keepPred) ++ [';'] := rfl
  by_cases hk : (((splitOnSemi l).map trimL).filter (· ≠ [])).filter keepPred = []
  · rw [hfc, if_pos hk]
    rfl
  · rw [hfc, if_neg hk]
    have hpartsfact : ∀ u ∈ ((splitOnSemi l).map trimL).filter (· ≠ []),
        (';' ∉ u) ∧ trimL u = u ∧ u ≠ [] := by
      intro u hu
      have hu2 := List.mem_of_mem_filter hu
      have hne := List.of_mem_filter hu
      obtain ⟨v, hv, rfl⟩ := List.mem_map.mp hu2
      exact ⟨fun hc => splitOnSemi_no_semi l v hv (mem_of_mem_trimL hc),
        trimL_idem v, by simpa using hne⟩
    have hmem : ∀ u ∈ (((splitOnSemi l).map trimL).filter (· ≠ [])).filter keepPred,
        u ∈ ((splitOnSemi l).map trimL).filter (· ≠ []) :=
      fun u hu => List.mem_of_mem_filter hu
    have hp2 := resplit ((((splitOnSemi l).map trimL).filter (· ≠ [])).filter keepPred)
      (fun u hu => (hpartsfact u (hmem u hu)).1)
      (fun u hu => (hpartsfact u (hmem u hu)).2.1)
      (fun u hu => (hpartsfact u (hmem u hu)).2.2) hk
    have hkeep : ((((splitOnSemi l).map trimL).filter (· ≠ [])).filter keepPred).filter
        keepPred = (((splitOnSemi l).map trimL).filter (· ≠ [])).filter keepPred :=
      List.filter_eq_self.mpr (fun u hu => List.of_mem_filter hu)
    show (if _ = [] then [] else _) = _
    rw [hp2, hkeep, if_neg hk]

/-- C8: the statement splitter/filter is idempotent — applying it twice gives
the same text, hence running `parse` on already-filtered input yields the
same statement set and parsed tables as running it on the raw input. -/
theorem filterStatements_idem :
    ∀ ddl : String,
      filterStatements (filterStatements ddl) = filterStatements ddl ∧
      ∀ stmtParse : String → Except String (List TableAst),
        Index.parse stmtParse (filterStatements ddl) = Index.parse stmtParse ddl := by
  intro ddl
  have h1 : filterStatements (filterStatements ddl) = filterStatements ddl := by
    show (⟨filterCore (filterStatements ddl).data⟩ : String) = ⟨filterCore ddl.data⟩
    rw [show (filterStatements ddl).data = filterCore ddl.data from rfl,
      filterCore_idem]
  refine ⟨h1, fun stmtParse => ?_⟩
  simp only [Index.parse]
  rw [h1]

/-! ## Claim C9 — does tokenization ever raise a lexing error? -/

/-- If some element of a list yields a result, `findSome?` yields one. -/
theorem findSome_isSome {α β : Type} (l : List α) (f : α → Option β) (a : α)
    (ha : a ∈ l) (hf : (f a).isSome) : (l.findSome? f).isSome := by
  induction l with
  | nil => simp at ha
  | cons x rest ih =>
    rw [List.findSome?_cons]
    cases hx : f x with
    | some b => simp
    | none =>
      rcases List.mem_cons.mp ha with rfl | ha2
      · rw [hx] at hf
        simp at hf
      · exact ih ha2

/-- Any character covered by the lexer (in the lexer's whitespace class, or
outside JS `\s` so the catch-all applies) is matched by some rule. -/
theorem firstRuleMatch_isSome (prev : Option Char) (c : Char) (rest : List Char)
    (hcov : lexWsChar c = true ∨ jsWs c = false) :
    (firstRuleMatch prev (c :: rest)).isSome := by
  rcases hcov with hw | hj
  · apply findSome_isSome ddlRules _ ⟨.whiteSpace, true, matchWsRule⟩
    · unfold ddlRules
      exact List.mem_cons_of_mem _ (List.mem_cons_of_mem _ (List.mem_cons_self _ _))
    · simp [matchWsRule, takeWhileLen, hw]
  · apply findSome_isSome ddlRules _ ⟨.unknownTok, true, matchUnknownRule⟩
    · unfold ddlRules
      repeat first
        | exact List.mem_cons_self _ _
        | apply List.mem_cons_of_mem
    · simp [matchUnknownRule, hj]

/-- The tokenization loop records no error over covered characters. -/
theorem tokenizeAux_no_errors (fuel : Nat) :
    ∀ (prev : Option Char) (cs : List Char) (pos : Nat),
      (∀ c ∈ cs, lexWsChar c = true ∨ jsWs c = false) →
      (tokenizeAux fuel prev cs pos).errors = [] := by
  induction fuel with
  | zero => intro prev cs pos _; rfl
  | succ fuel ih =>
    intro prev cs pos hcov
    cases cs with
    | nil => rfl
    | cons c rest =>
      have hsome := firstRuleMatch_isSome prev c rest (hcov c (by simp))
      obtain ⟨⟨rule, n⟩, hr⟩ := Option.isSome_iff_exists.mp hsome
      have hdrop : ∀ c' ∈ (c :: rest).drop n, lexWsChar c' = true ∨ jsWs c' = false :=
        fun c' hc' => hcov c' (List.drop_subset n (c :: rest) hc')
      simp only [tokenizeAux, hr]
      cases hsk : rule.skipped with
      | true => simp [hsk, ih _ _ _ hdrop]
      | false => simp [hsk, ih _ _ _ hdrop]

/-- C9 counterexample: the vertical-tab character U+000B is in JS `\s` (so
the catch-all `[^\s]` rejects it) but not in the lexer's whitespace class
`[ \t\n\r\f]`, so no rule matches it and tokenization records a lexing
error — reaching the parser's `Lexing failed` branch. -/
theorem tokenize_vtab_error :
    ddlTokenize "\x0b" = ⟨[], [0]⟩ ∧ (ddlTokenize "\x0b").errors ≠ [] :=
  ⟨rfl, by intro h; rw [show ddlTokenize "\x0b" = ⟨[], [0]⟩ from rfl] at h; cases h⟩

/-- C9 amended: every single character outside JS `\s` that matches no other
rule is silently dropped (the skipped catch-all), and tokenization of input
made of lexer whitespace and non-`\s` characters never errors; but
characters inside JS `\s` yet outside `[ \t\n\r\f]` (e.g. U+000B, U+00A0)
match no rule and produce a lexing error. -/
theorem tokenize_total_amended :
    (∀ s : String,
      (∀ c ∈ s.data, lexWsChar c = true ∨ jsWs c = false) →
      (ddlTokenize s).errors = []) ∧
    (ddlTokenize "$").tokens = [] ∧ (ddlTokenize "$").errors = [] := by
  refine ⟨fun s h => tokenizeAux_no_errors s.data.length none s.data 0 h, rfl, rfl⟩

/-- C9 amended witness: a statement-like input lexes with no errors. -/
theorem tokenize_total_amended_witness :
    (ddlTokenize "create table t (a UInt64);").errors = [] :=
  tokenize_total_amended.1 "create table t (a UInt64);" (by decide)

/-! ## Claim C6 — nullability agreement between the two renderers -/

/-- One-step recurrence of `mapTypeGo` at successor fuel (definitional). -/
theorem mapTypeGo_eq (options : MappingOptions) (fuel : Nat) (type : TypeAst)
    (depth : Nat) :
    Emitter.mapTypeGo options (fuel + 1) type depth =
      (if depth > Emitter.MAX_TYPE_DEPTH then .error .depthExceeded
      else do
        let () ← Emitter.validateTypeAst type
        match (options.plugins.take 50).findSome? (fun p => p type) with
        | some s => pure s
        | none =>
          match type with
          | .mk "Nullable" args => do
              let innerTs ← Emitter.mapTypeGo options fuel (toTypeOrUnknown args.head?) (depth + 1)
              pure (innerTs ++ " | null")
          | .mk "LowCardinality" args =>
              Emitter.mapTypeGo options fuel (toTypeOrUnknown args.head?) (depth + 1)
          | .mk "Array" args => do
              let innerTs ← Emitter.mapTypeGo options fuel (toTypeOrUnknown args.head?) (depth + 1)
              pure (innerTs ++ "[]")
          | .mk "Tuple" args => do
              let parts ← (args.take 100).enum.mapM fun p => do
                let argType ← Emitter.mapTypeGo options fuel (toTypeOrUnknown (some p.2)) (depth + 1)
                pure ("_" ++ toString p.1 ++ ": " ++ argType ++ ";")
              pure ("\x7b " ++ joinSep " " parts ++ " \x7d")
          | .mk "Map" args => do
              let valueTs ← Emitter.mapTypeGo options fuel (toTypeOrUnknown args[1]?) (depth + 1)
              pure ("Record<string, " ++ valueTs ++ ">")
          | .mk "Enum8" _ | .mk "Enum16" _ => pure (Emitter.mapEnumType type)
          | .mk "Decimal" _ =>
              pure (if options.decimal = .decimalJs then "Decimal" else "string")
          | .mk "Float32" _ | .mk "Float64" _ | .mk "Int8" _ | .mk "Int16" _
          | .mk "Int32" _ | .mk "UInt8" _ | .mk "UInt16" _ | .mk "UInt32" _ =>
              pure "number"
          | .mk "Int64" _ | .mk "UInt64" _ =>
              pure (if options.int64As = .bigint then "bigint" else "string")
          | .mk "String" _ | .mk "UUID" _ | .mk "FixedString" _ | .mk "IPv4" _
          | .mk "IPv6" _ => pure "string"
          | .mk "Date" _ | .mk "DateTime" _ | .mk "DateTime64" _ =>
              pure (if options.datetimeAs = .date then "Date" else "string")
          | .mk name _ =>
              if options.failOnUnknown then .error (.unknownType name)
              else pure "unknown") := rfl

/-- A union-with-null render ends in the letter `l`. -/
theorem renders_lastChar {s : String} (h : rendersNullable s) :
    s.data.getLast? = some 'l' := by
  obtain ⟨s0, rfl⟩ := h
  rw [show (s0 ++ " | null").data = s0.data ++ " | null".data from rfl]
  rw [List.getLast?_append_of_ne_nil _ (by decide)]
  decide

/-- A string ending in another character is not a union-with-null render. -/
theorem not_renders_of_last {s : String} {c : Char} (h : s.data.getLast? = some c)
    (hc : c ≠ 'l') : ¬ rendersNullable s := by
  intro hr
  rw [renders_lastChar hr] at h
  exact hc (Option.some.inj h).symm

/-- Appending a non-empty literal fixes the last character. -/
theorem lastChar_append (a b : String) (hb : b.data ≠ []) :
    (a ++ b).data.getLast? = b.data.getLast? := by
  rw [show (a ++ b).data = a.data ++ b.data from rfl]
  exact List.getLast?_append_of_ne_nil _ hb

/-- `"Decimal"` is not a union-with-null render (same length, different
text). -/
theorem not_renders_decimal : ¬ rendersNullable "Decimal" := by
  rintro ⟨s0, h⟩
  have hd : "Decimal".data = s0.data ++ " | null".data := congrArg String.data h
  have hlen := congrArg List.length hd
  simp at hlen
  rw [List.length_eq_zero.mp hlen] at hd
  simp at hd

/-- A joined list of strings all ending in `c` ends in `c`. -/
theorem joinSep_last (sep : String) (c : Char) :
    ∀ l : List String, l ≠ [] → (∀ x ∈ l, x.data.getLast? = some c) →
      (joinSep sep l).data.getLast? = some c := by
  intro l
  induction l with
  | nil => intro h; exact absurd rfl h
  | cons x rest ih =>
    intro _ hall
    cases rest with
    | nil => exact hall x (by simp)
    | cons y rest2 =>
      have hJ := ih (by simp) (fun z hz => hall z (List.mem_cons_of_mem x hz))
      have hJne : (joinSep sep (y :: rest2)).data ≠ [] := by
        intro hnil
        rw [hnil] at hJ
        simp at hJ
      show ((x ++ sep) ++ joinSep sep (y :: rest2)).data.getLast? = some c
      rw [lastChar_append _ _ hJne]
      exact hJ

/-- The transparent `LowCardinality` wrapper defers the nullable shape to its
first type argument. -/
theorem nullableShape_LC (args : List TypeArg) :
    nullableShape (.mk "LowCardinality" args) =
      nullableShape (toTypeOrUnknown args.head?) := by
  cases args with
  | nil => simp [nullableShape, toTypeOrUnknown]
  | cons a rest =>
    cases a with
    | type t1 => simp [nullableShape, toTypeOrUnknown]
    | num n => simp [nullableShape, toTypeOrUnknown]
    | str s => simp [nullableShape, toTypeOrUnknown]
    | enum k v => simp [nullableShape, toTypeOrUnknown]

/-- A type name other than the two nullability wrappers never has the
nullable shape. -/
theorem nullableShape_other (name : String) (args : List TypeArg)
    (h1 : name ≠ "Nullable") (h2 : name ≠ "LowCardinality") :
    nullableShape (.mk name args) = false := by
  rw [nullableShape.eq_def]
  split
  next _ _ heq => injection heq with hn _; exact absurd hn h1
  next _ _ heq => injection heq with hn _; exact absurd hn h2
  next => rfl

/-- An enum union render (quoted keys, or the `"string"` fallback) is never a
union-with-null render. -/
theorem not_renders_enum (t : TypeAst) : ¬ rendersNullable (Emitter.mapEnumType t) := by
  unfold Emitter.mapEnumType
  by_cases hk : (Emitter.extractEnumKeys t.args).length = 0
  · rw [if_pos hk]
    exact not_renders_of_last (c := 'g') (by decide) (by decide)
  · rw [if_neg hk]
    refine not_renders_of_last (c := Char.ofNat 39) ?_ (by decide)
    refine joinSep_last " | " _ _ ?_ ?_
    · intro hnil
      rw [List.map_eq_nil_iff.mp hnil] at hk
      exact hk rfl
    · intro x hx
      obtain ⟨k, _, rfl⟩ := List.mem_map.mp hx
      rw [show ("'" ++ Emitter.escapeStringLiteral k ++ "'") =
        ("'" ++ Emitter.escapeStringLiteral k) ++ "'" from rfl]
      rw [lastChar_append _ _ (by decide)]
      decide

/-- With no plugins installed, a successfully mapped type renders as a
union-with-null exactly when the type is `Nullable`, possibly wrapped in
`LowCardinality` layers whose first argument is a type. -/
theorem renders_iff_shape (options : MappingOptions)
    (hpl : options.plugins = []) :
    ∀ fuel t d s, Emitter.mapTypeGo options fuel t d = .ok s →
      (rendersNullable s ↔ nullableShape t = true) := by
  intro fuel
  induction fuel with
  | zero =>
    intro t d s h
    exact absurd h (by simp [Emitter.mapTypeGo])
  | succ fuel ih =>
    intro t d s h
    rw [mapTypeGo_eq, hpl] at h
    by_cases hd : d > Emitter.MAX_TYPE_DEPTH
    · rw [if_pos hd] at h; exact absurd h (by simp)
    rw [if_neg hd] at h
    cases hv : Emitter.validateTypeAst t with
    | error e => rw [hv] at h; exact absurd h (by simp [bind, Except.bind])
    | ok u =>
      cases u
      rw [hv] at h
      simp only [bind, Except.bind, List.take_nil, List.findSome?_nil] at h
      split at h
      -- Nullable
      next args =>
        split at h
        next => exact absurd h (by simp)
        next inner heq =>
          simp only [pure, Except.pure, Except.ok.injEq] at h
          subst h
          simp only [nullableShape, iff_true]
          exact ⟨inner, rfl⟩
      -- LowCardinality
      next args =>
        rw [nullableShape_LC]
        exact ih _ _ _ h
      -- Array
      next args =>
        split at h
        next => exact absurd h (by simp)
        next inner heq =>
          simp only [pure, Except.pure, Except.ok.injEq] at h
          subst h
          rw [nullableShape_other _ _ (by decide) (by decide)]
          simp only [Bool.false_eq_true, iff_false]
          exact not_renders_of_last (lastChar_append _ "[]" (by decide)) (by decide)
      -- Tuple
      next args =>
        split at h
        next => exact absurd h (by simp)
        next parts heq =>
          simp only [pure, Except.pure, Except.ok.injEq] at h
          subst h
          rw [nullableShape_other _ _ (by decide) (by decide)]
          simp only [Bool.false_eq_true, iff_false]
          exact not_renders_of_last (lastChar_append _ " \x7d" (by decide)) (by decide)
      -- Map
      next args =>
        split at h
        next => exact absurd h (by simp)
        next inner heq =>
          simp only [pure, Except.pure, Except.ok.injEq] at h
          subst h
          rw [nullableShape_other _ _ (by decide) (by decide)]
          simp only [Bool.false_eq_true, iff_false]
          exact not_renders_of_last (lastChar_append _ ">" (by decide)) (by decide)
      -- Enum8 / Enum16
      next args =>
        simp only [pure, Except.pure, Except.ok.injEq] at h
        subst h
        rw [nullableShape_other _ _ (by decide) (by decide)]
        simp only [Bool.false_eq_true, iff_false]
        exact not_renders_enum _
      -- Enum8 / Enum16
      next args =>
        simp only [pure, Except.pure, Except.ok.injEq] at h
        subst h
        rw [nullableShape_other _ _ (by decide) (by decide)]
        simp only [Bool.false_eq_true, iff_false]
        exact not_renders_enum _
      -- Decimal
      next args =>
        simp only [pure, Except.pure, Except.ok.injEq] at h
        subst h
        rw [nullableShape_other _ _ (by decide) (by decide)]
        simp only [Bool.false_eq_true, iff_false]
        split
        · exact not_renders_decimal
        · exact not_renders_of_last (c := 'g') (by decide) (by decide)
      next args =>
        simp only [pure, Except.pure, Except.ok.injEq] at h
        subst h
        rw [nullableShape_other _ _ (by decide) (by decide)]
        simp only [Bool.false_eq_true, iff_false]
        exact not_renders_of_last (c := 'r') (by decide) (by decide)
      next args =>
        simp only [pure, Except.pure, Except.ok.injEq] at h
        subst h
        rw [nullableShape_other _ _ (by decide) (by decide)]
        simp only [Bool.false_eq_true, iff_false]
        exact not_renders_of_last (c := 'r') (by decide) (by decide)
      next args =>
        simp only [pure, Except.pure, Except.ok.injEq] at h
        subst h
        rw [nullableShape_other _ _ (by decide) (by decide)]
        simp only [Bool.false_eq_true, iff_false]
        exact not_renders_of_last (c := 'r') (by decide) (by decide)
      next args =>
        simp only [pure, Except.pure, Except.ok.injEq] at h
        subst h
        rw [nullableShape_other _ _ (by decide) (by decide)]
        simp only [Bool.false_eq_true, iff_false]
        exact not_renders_of_last (c := 'r') (by decide) (by decide)
      next args =>
        simp only [pure, Except.pure, Except.ok.injEq] at h
        subst h
        rw [nullableShape_other _ _ (by decide) (by decide)]
        simp only [Bool.false_eq_true, iff_false]
        exact not_renders_of_last (c := 'r') (by decide) (by decide)
      next args =>
        simp only [pure, Except.pure, Except.ok.injEq] at h
        subst h
        rw [nullableShape_other _ _ (by decide) (by decide)]
        simp only [Bool.false_eq_true, iff_false]
        exact not_renders_of_last (c := 'r') (by decide) (by decide)
      next args =>
        simp only [pure, Except.pure, Except.ok.injEq] at h
        subst h
        rw [nullableShape_other _ _ (by decide) (by decide)]
        simp only [Bool.false_eq_true, iff_false]
        exact not_renders_of_last (c := 'r') (by decide) (by decide)
      next args =>
        simp only [pure, Except.pure, Except.ok.injEq] at h
        subst h
        rw [nullableShape_other _ _ (by decide) (by decide)]
        simp only [Bool.false_eq_true, iff_false]
        exact not_renders_of_last (c := 'r') (by decide) (by decide)
      next args =>
        simp only [pure, Except.pure, Except.ok.injEq] at h
        subst h
        rw [nullableShape_other _ _ (by decide) (by decide)]
        simp only [Bool.false_eq_true, iff_false]
        split
        · exact not_renders_of_last (c := 't') (by decide) (by decide)
        · exact not_renders_of_last (c := 'g') (by decide) (by decide)
      next args =>
        simp only [pure, Except.pure, Except.ok.injEq] at h
        subst h
        rw [nullableShape_other _ _ (by decide) (by decide)]
        simp only [Bool.false_eq_true, iff_false]
        split
        · exact not_renders_of_last (c := 't') (by decide) (by decide)
        · exact not_renders_of_last (c := 'g') (by decide) (by decide)
      next args =>
        simp only [pure, Except.pure, Except.ok.injEq] at h
        subst h
        rw [nullableShape_other _ _ (by decide) (by decide)]
        simp only [Bool.false_eq_true, iff_false]
        exact not_renders_of_last (c := 'g') (by decide) (by decide)
      next args =>
        simp only [pure, Except.pure, Except.ok.injEq] at h
        subst h
        rw [nullableShape_other _ _ (by decide) (by decide)]
        simp only [Bool.false_eq_true, iff_false]
        exact not_renders_of_last (c := 'g') (by decide) (by decide)
      next args =>
        simp only [pure, Except.pure, Except.ok.injEq] at h
        subst h
        rw [nullableShape_other _ _ (by decide) (by decide)]
        simp only [Bool.false_eq_true, iff_false]
        exact not_renders_of_last (c := 'g') (by decide) (by decide)
      next args =>
        simp only [pure, Except.pure, Except.ok.injEq] at h
        subst h
        rw [nullableShape_other _ _ (by decide) (by decide)]
        simp only [Bool.false_eq_true, iff_false]
        exact not_renders_of_last (c := 'g') (by decide) (by decide)
      next args =>
        simp only [pure, Except.pure, Except.ok.injEq] at h
        subst h
        rw [nullableShape_other _ _ (by decide) (by decide)]
        simp only [Bool.false_eq_true, iff_false]
        exact not_renders_of_last (c := 'g') (by decide) (by decide)
      next args =>
        simp only [pure, Except.pure, Except.ok.injEq] at h
        subst h
        rw [nullableShape_other _ _ (by decide) (by decide)]
        simp only [Bool.false_eq_true, iff_false]
        split
        · exact not_renders_of_last (c := 'e') (by decide) (by decide)
        · exact not_renders_of_last (c := 'g') (by decide) (by decide)
      next args =>
        simp only [pure, Except.pure, Except.ok.injEq] at h
        subst h
        rw [nullableShape_other _ _ (by decide) (by decide)]
        simp only [Bool.false_eq_true, iff_false]
        split
        · exact not_renders_of_last (c := 'e') (by decide) (by decide)
        · exact not_renders_of_last (c := 'g') (by decide) (by decide)
      next args =>
        simp only [pure, Except.pure, Except.ok.injEq] at h
        subst h
        rw [nullableShape_other _ _ (by decide) (by decide)]
        simp only [Bool.false_eq_true, iff_false]
        split
        · exact not_renders_of_last (c := 'e') (by decide) (by decide)
        · exact not_renders_of_last (c := 'g') (by decide) (by decide)
      -- unknown type names
      next =>
        split at h
        next => exact absurd h (by simp)
        next =>
          simp only [pure, Except.pure, Except.ok.injEq] at h
          subst h
          rw [nullableShape.eq_def]
          split
          next _ _ heq => injection heq with hn _; exact absurd hn (by assumption)
          next _ _ heq => injection heq with hn _; exact absurd hn (by assumption)
          next =>
            simp only [Bool.false_eq_true, iff_false]
            exact not_renders_of_last (c := 'n') (by decide) (by decide)

set_option maxHeartbeats 4000000 in
/-- The JSON-Schema renderer produces an anyOf-with-null schema exactly for
the nullable shapes, for every resolved TypeScript string. -/
theorem anyOfNullForm_schema (res : String) :
    ∀ n t, sizeOf t ≤ n →
      anyOfNullForm (JsonSchema.jsonSchemaForType t res) = nullableShape t := by
  intro n
  induction n with
  | zero =>
    intro t h
    obtain ⟨name, args⟩ := t
    simp at h
  | succ n ih =>
    intro t h
    obtain ⟨name, args⟩ := t
    rw [JsonSchema.jsonSchemaForType.eq_def]
    split
    -- Nullable
    next args2 heq =>
      injection heq with hn ha; subst hn; subst ha
      simp only [anyOfNullForm, nullableShape]
    -- LowCardinality
    next args2 heq =>
      injection heq with hn ha; subst hn; subst ha
      rw [nullableShape_LC]
      match args, h with
      | [], h =>
        rw [show toTypeOrUnknown ([] : List TypeArg).head? = .mk "Unknown" []
          from rfl, nullableShape_other "Unknown" [] (by decide) (by decide)]
        rfl
      | .type t1 :: rest, h =>
        show anyOfNullForm (JsonSchema.jsonSchemaForType t1 res) =
          nullableShape t1
        refine ih t1 ?_
        simp at h
        omega
      | .num v :: rest, h =>
        rw [show toTypeOrUnknown ((TypeArg.num v :: rest).head?) = .mk "Unknown" []
          from rfl, nullableShape_other "Unknown" [] (by decide) (by decide)]
        rfl
      | .str v :: rest, h =>
        rw [show toTypeOrUnknown ((TypeArg.str v :: rest).head?) = .mk "Unknown" []
          from rfl, nullableShape_other "Unknown" [] (by decide) (by decide)]
        rfl
      | .enum k v :: rest, h =>
        rw [show toTypeOrUnknown ((TypeArg.enum k v :: rest).head?) = .mk "Unknown" []
          from rfl, nullableShape_other "Unknown" [] (by decide) (by decide)]
        rfl
    -- Array
    next args2 heq =>
      injection heq with hn ha; subst hn; subst ha
      rw [nullableShape_other _ _ (by decide) (by decide)]
      rfl
    -- Tuple
    next args2 heq =>
      injection heq with hn ha; subst hn; subst ha
      rw [nullableShape_other _ _ (by decide) (by decide)]
      rfl
    -- Map
    next args2 heq =>
      injection heq with hn ha; subst hn; subst ha
      rw [nullableShape_other _ _ (by decide) (by decide)]
      rfl
    next args2 heq =>
      injection heq with hn ha; subst hn; subst ha
      rw [nullableShape_other _ _ (by decide) (by decide)]
      try simp only []
      split
      · rfl
      · rfl
    next args2 heq =>
      injection heq with hn ha; subst hn; subst ha
      rw [nullableShape_other _ _ (by decide) (by decide)]
      try simp only []
      split
      · rfl
      · rfl
    next args2 heq =>
      injection heq with hn ha; subst hn; subst ha
      rw [nullableShape_other _ _ (by decide) (by decide)]
      rfl
    next args2 heq =>
      injection heq with hn ha; subst hn; subst ha
      rw [nullableShape_other _ _ (by decide) (by decide)]
      rfl
    next args2 heq =>
      injection heq with hn ha; subst hn; subst ha
      rw [nullableShape_other _ _ (by decide) (by decide)]
      rfl
    next args2 heq =>
      injection heq with hn ha; subst hn; subst ha
      rw [nullableShape_other _ _ (by decide) (by decide)]
      rfl
    next args2 heq =>
      injection heq with hn ha; subst hn; subst ha
      rw [nullableShape_other _ _ (by decide) (by decide)]
      rfl
    next args2 heq =>
      injection heq with hn ha; subst hn; subst ha
      rw [nullableShape_other _ _ (by decide) (by decide)]
      rfl
    next args2 heq =>
      injection heq with hn ha; subst hn; subst ha
      rw [nullableShape_other _ _ (by decide) (by decide)]
      rfl
    next args2 heq =>
      injection heq with hn ha; subst hn; subst ha
      rw [nullableShape_other _ _ (by decide) (by decide)]
      rfl
    next args2 heq =>
      injection heq with hn ha; subst hn; subst ha
      rw [nullableShape_other _ _ (by decide) (by decide)]
      rfl
    next args2 heq =>
      injection heq with hn ha; subst hn; subst ha
      rw [nullableShape_other _ _ (by decide) (by decide)]
      try simp only []
      split
      · rfl
      · rfl
    next args2 heq =>
      injection heq with hn ha; subst hn; subst ha
      rw [nullableShape_other _ _ (by decide) (by decide)]
      try simp only []
      split
      · rfl
      · rfl
    next args2 heq =>
      injection heq with hn ha; subst hn; subst ha
      rw [nullableShape_other _ _ (by decide) (by decide)]
      rfl
    next args2 heq =>
      injection heq with hn ha; subst hn; subst ha
      rw [nullableShape_other _ _ (by decide) (by decide)]
      rfl
    next args2 heq =>
      injection heq with hn ha; subst hn; subst ha
      rw [nullableShape_other _ _ (by decide) (by decide)]
      rfl
    next args2 heq =>
      injection heq with hn ha; subst hn; subst ha
      rw [nullableShape_other _ _ (by decide) (by decide)]
      rfl
    next args2 heq =>
      injection heq with hn ha; subst hn; subst ha
      rw [nullableShape_other _ _ (by decide) (by decide)]
      rfl
    next args2 heq =>
      injection heq with hn ha; subst hn; subst ha
      rw [nullableShape_other _ _ (by decide) (by decide)]
      try simp only []
      split
      · rfl
      · rfl
    next args2 heq =>
      injection heq with hn ha; subst hn; subst ha
      rw [nullableShape_other _ _ (by decide) (by decide)]
      try simp only []
      split
      · rfl
      · rfl
    next args2 heq =>
      injection heq with hn ha; subst hn; subst ha
      rw [nullableShape_other _ _ (by decide) (by decide)]
      try simp only []
      split
      · rfl
      · rfl
    -- remaining type names
    next =>
      rename_i heq
      injection heq with hn ha; subst hn; subst ha
      have h1 : name ≠ "Nullable" := by assumption
      have h2 : name ≠ "LowCardinality" := by assumption
      rw [nullableShape_other name args h1 h2]
      rfl

/-- Members of a successful `mapM` over `Except` come from successful calls
on members of the input list. -/
theorem mapM_ok_mem {ε α β : Type} (f : α → Except ε β) :
    ∀ (l : List α) (ys : List β), l.mapM f = .ok ys →
      ∀ y ∈ ys, ∃ x ∈ l, f x = .ok y := by
  intro l
  induction l with
  | nil =>
    intro ys h y hy
    simp only [List.mapM_nil, pure, Except.pure, Except.ok.injEq] at h
    subst h
    simp at hy
  | cons a l ih =>
    intro ys h y hy
    rw [List.mapM_cons] at h
    cases hfa : f a with
    | error e => rw [hfa] at h; simp [bind, Except.bind] at h
    | ok b =>
      rw [hfa] at h
      cases hml : l.mapM f with
      | error e => rw [hml] at h; simp [bind, Except.bind] at h
      | ok bs =>
        rw [hml] at h
        simp only [bind, Except.bind, pure, Except.pure, Except.ok.injEq] at h
        subst h
        rcases List.mem_cons.mp hy with rfl | hy2
        · exact ⟨a, List.mem_cons_self a l, hfa⟩
        · obtain ⟨x, hx, hfx⟩ := ih bs hml y hy2
          exact ⟨x, List.mem_cons_of_mem a hx, hfx⟩

/-- A successfully mapped column records its resolved type together with
exactly that type's TypeScript rendering. -/
theorem mapSingleColumn_ts {column : ColumnAst} {ctx : Emitter.MappingContext}
    {options : MappingOptions} {mc : MappedColumn}
    (h : Emitter.mapSingleColumn column ctx options = .ok mc) :
    Emitter.mapTypeAstToTs mc.typeAst options = .ok mc.tsType := by
  unfold Emitter.mapSingleColumn at h
  simp only [bind, Except.bind, pure, Except.pure] at h
  split at h
  · split at h
    next => exact absurd h (by simp)
    next v heq =>
      split at h
      next => exact absurd h (by simp)
      next ts hts =>
        simp only [Except.ok.injEq] at h
        subst h
        exact hts
  · split at h
    next => exact absurd h (by simp)
    next ts hts =>
      simp only [Except.ok.injEq] at h
      subst h
      exact hts

/-- Every column of every table produced by the resolver entry point records
a type whose rendering is the column's stored TypeScript type. -/
theorem map_column_ts {tables : List TableAst} {options : MappingOptions}
    {mapped : List MappedTable} (h : Emitter.map tables options = .ok mapped) :
    ∀ mt ∈ mapped, ∀ mc ∈ mt.columns,
      Emitter.mapTypeAstToTs mc.typeAst options = .ok mc.tsType := by
  intro mt hmt mc hmc
  unfold Emitter.map at h
  split at h
  next => exact absurd h (by simp)
  next =>
    simp only [bind, Except.bind] at h
    split at h
    next => exact absurd h (by simp)
    next =>
      obtain ⟨table, _, hst⟩ := mapM_ok_mem _ _ _ h mt hmt
      unfold Emitter.mapSingleTable at hst
      simp only [bind, Except.bind] at hst
      split at hst
      next => exact absurd hst (by simp)
      next ctx hctx =>
        split at hst
        next => exact absurd hst (by simp [pure, Except.pure])
        next cols hcols =>
          simp only [pure, Except.pure, Except.ok.injEq] at hst
          subst hst
          obtain ⟨column, _, hcol⟩ := mapM_ok_mem _ _ _ hcols mc hmc
          simp only [bind, Except.bind] at hcol
          split at hcol
          next => exact absurd hcol (by simp)
          next => exact mapSingleColumn_ts hcol

/-- A plain table with a `Nullable(UInt64)` column and a `String` column. -/
def tC6 : TableAst :=
  ⟨"events_n",
   [⟨"id", .mk "Nullable" [.type (.mk "UInt64" [])], "Nullable(UInt64)", none, none⟩,
    ⟨"name", .mk "String" [], "String", none, none⟩],
   none, none, none, none, none⟩

/-- The mapped `Nullable(UInt64)` column of `tC6`. -/
def mcC6a : MappedColumn :=
  ⟨"id", "bigint | null", "Nullable(UInt64)",
   .mk "Nullable" [.type (.mk "UInt64" [])], none⟩

/-- The mapped `String` column of `tC6`. -/
def mcC6b : MappedColumn := ⟨"name", "string", "String", .mk "String" [], none⟩

/-- The resolver's output for `tC6` under the default options. -/
def mtC6 : MappedTable := ⟨"EventsN", [mcC6a, mcC6b], ⟨none, none⟩⟩

/-- Options installing a type plugin that renders `UInt64` as a null union. -/
def optsC6P : MappingOptions :=
  ⟨.bigint, .string, .string, false, false,
   [fun t => if t.name = "UInt64" then some "bigint | null" else none]⟩

/-- A table with a single plain `UInt64` column. -/
def tC6P : TableAst :=
  ⟨"t", [⟨"id", .mk "UInt64" [], "UInt64", none, none⟩], none, none, none, none, none⟩

/-- The column `tC6P` maps to under `optsC6P`: the plugin string is adopted
verbatim as the TypeScript type. -/
def mcC6P : MappedColumn := ⟨"id", "bigint | null", "UInt64", .mk "UInt64" [], none⟩

/-- The resolver's output for `tC6P` under `optsC6P`. -/
def mtC6P : MappedTable := ⟨"T", [mcC6P], ⟨none, none⟩⟩

/-- C6: counterexample to the unconditional round-trip. A type plugin may
render any type as a union with null; the interface output then shows a
nullable field while the JSON-Schema renderer, which dispatches on the stored
type tree and never consults plugins, emits a plain (non-anyOf) schema for the
same column. -/
theorem nullability_roundtrip_counterexample :
    Emitter.map [tC6P] optsC6P = .ok [mtC6P] ∧
    rendersNullable mcC6P.tsType ∧
    anyOfNullForm (JsonSchema.jsonSchemaForType mcC6P.typeAst mcC6P.tsType) = false :=
  ⟨rfl, ⟨"bigint", rfl⟩, by rw [JsonSchema.jsonSchemaForType.eq_def]; rfl⟩

/-- C6 (amended): with no type plugins installed, the two renderers agree on
nullability for every column of every table the resolver outputs — the stored
TypeScript type is a union with null exactly when the column's JSON-Schema
property is an anyOf union including the null type. -/
theorem interface_jsonschema_nullability
    (tables : List TableAst) (options : MappingOptions)
    (mapped : List MappedTable)
    (hpl : options.plugins = [])
    (h : Emitter.map tables options = .ok mapped) :
    ∀ mt ∈ mapped, ∀ mc ∈ mt.columns,
      (rendersNullable mc.tsType ↔
        anyOfNullForm (JsonSchema.jsonSchemaForType mc.typeAst mc.tsType) = true) := by
  intro mt hmt mc hmc
  have hts := map_column_ts h mt hmt mc hmc
  have hA := renders_iff_shape options hpl _ _ _ _ hts
  have hB := anyOfNullForm_schema mc.tsType (sizeOf mc.typeAst) mc.typeAst le_rfl
  rw [hA, hB]

/-- C6 witness: the round-trip theorem applied to a concrete table whose
mapping succeeds, at its nullable and non-nullable columns. -/
theorem interface_jsonschema_nullability_witness :
    Emitter.map [tC6] optsD = .ok [mtC6] ∧
    (rendersNullable mcC6a.tsType ↔
      anyOfNullForm (JsonSchema.jsonSchemaForType mcC6a.typeAst mcC6a.tsType) = true) ∧
    (rendersNullable mcC6b.tsType ↔
      anyOfNullForm (JsonSchema.jsonSchemaForType mcC6b.typeAst mcC6b.tsType) = true) :=
  ⟨rfl,
   interface_jsonschema_nullability [tC6] optsD [mtC6] rfl rfl
     mtC6 (List.mem_singleton.mpr rfl) mcC6a (List.mem_cons_self mcC6a [mcC6b]),
   interface_jsonschema_nullability [tC6] optsD [mtC6] rfl rfl
     mtC6 (List.mem_singleton.mpr rfl) mcC6b
     (List.mem_cons_of_mem mcC6a (List.mem_cons_self mcC6b []))⟩

/-! ## Claim C4 — the depth bound of the type mapper -/

/-- Every tree has traversed depth at least one. -/
theorem visitedDepth_pos (t : TypeAst) : 1 ≤ visitedDepth t := by
  rw [visitedDepth.eq_def]
  split <;> omega

/-- A node that is well-formed along the traversed positions passes input
validation. -/
theorem validate_of_wf {t : TypeAst} (hw : wfVisited t = true) :
    Emitter.validateTypeAst t = .ok () := by
  obtain ⟨name, args⟩ := t
  rw [wfVisited.eq_def] at hw
  split at hw
  all_goals
    rename_i heq
    injection heq with hn ha
    subst hn
    subst ha
    simp only [Bool.and_eq_true, Nat.ble_eq, Bool.not_eq_true',
      beq_eq_false_iff_ne, ne_eq] at hw
    simp only [Emitter.validateTypeAst, TypeAst.name, TypeAst.args]
    rw [if_neg (by first | decide | exact hw.1), if_neg (by omega)]

/-- Traversed depth through the first argument. -/
theorem vdHead_eq (args : List TypeArg) :
    visitedDepth (toTypeOrUnknown args.head?) = vdHead args := by
  match args with
  | [] => simp [vdHead, visitedDepth, toTypeOrUnknown]
  | .type t :: rest => simp [vdHead, toTypeOrUnknown]
  | .num v :: rest => simp [vdHead, visitedDepth, toTypeOrUnknown]
  | .str v :: rest => simp [vdHead, visitedDepth, toTypeOrUnknown]
  | .enum k v :: rest => simp [vdHead, visitedDepth, toTypeOrUnknown]

/-- Well-formedness through the first argument. -/
theorem wfHead_eq (args : List TypeArg) :
    wfVisited (toTypeOrUnknown args.head?) = wfHead args := by
  match args with
  | [] => simp [wfHead, wfVisited, toTypeOrUnknown]
  | .type t :: rest => simp [wfHead, toTypeOrUnknown]
  | .num v :: rest => simp [wfHead, wfVisited, toTypeOrUnknown]
  | .str v :: rest => simp [wfHead, wfVisited, toTypeOrUnknown]
  | .enum k v :: rest => simp [wfHead, wfVisited, toTypeOrUnknown]

/-- Traversed depth through the second argument. -/
theorem vdSecond_eq (args : List TypeArg) :
    visitedDepth (toTypeOrUnknown args[1]?) = vdSecond args := by
  match args with
  | [] => simp [vdSecond, visitedDepth, toTypeOrUnknown]
  | [a] => simp [vdSecond, visitedDepth, toTypeOrUnknown]
  | a :: .type t :: rest => simp [vdSecond, toTypeOrUnknown]
  | a :: .num v :: rest => simp [vdSecond, visitedDepth, toTypeOrUnknown]
  | a :: .str v :: rest => simp [vdSecond, visitedDepth, toTypeOrUnknown]
  | a :: .enum k v :: rest => simp [vdSecond, visitedDepth, toTypeOrUnknown]

/-- Well-formedness through the second argument. -/
theorem wfSecond_eq (args : List TypeArg) :
    wfVisited (toTypeOrUnknown args[1]?) = wfSecond args := by
  match args with
  | [] => simp [wfSecond, wfVisited, toTypeOrUnknown]
  | [a] => simp [wfSecond, wfVisited, toTypeOrUnknown]
  | a :: .type t :: rest => simp [wfSecond, toTypeOrUnknown]
  | a :: .num v :: rest => simp [wfSecond, wfVisited, toTypeOrUnknown]
  | a :: .str v :: rest => simp [wfSecond, wfVisited, toTypeOrUnknown]
  | a :: .enum k v :: rest => simp [wfSecond, wfVisited, toTypeOrUnknown]

/-- Each visited tuple element is bounded by the tuple argument depth. -/
theorem vdList_mem (args : List TypeArg) :
    ∀ a ∈ args, visitedDepth (toTypeOrUnknown (some a)) ≤ vdList args := by
  induction args with
  | nil => intro a ha; simp at ha
  | cons b rest ih =>
    intro a ha
    rcases List.mem_cons.mp ha with rfl | ha2
    · match a with
      | .type t => simp [vdList, toTypeOrUnknown]
      | .num v => simp [vdList, toTypeOrUnknown, visitedDepth]
      | .str v => simp [vdList, toTypeOrUnknown, visitedDepth]
      | .enum k v => simp [vdList, toTypeOrUnknown, visitedDepth]
    · refine le_trans (ih a ha2) ?_
      match b with
      | .type t => simp [vdList]
      | .num v => simp [vdList]
      | .str v => simp [vdList]
      | .enum k v => simp [vdList]

/-- Tuple well-formedness covers every visited element. -/
theorem wfList_mem {args : List TypeArg} (hw : wfList args = true) :
    ∀ a ∈ args, wfVisited (toTypeOrUnknown (some a)) = true := by
  induction args with
  | nil => intro a ha; simp at ha
  | cons b rest ih =>
    intro a ha
    rcases List.mem_cons.mp ha with rfl | ha2
    · match a, hw with
      | .type t, hw =>
        simp only [wfList, Bool.and_eq_true] at hw
        exact hw.1
      | .num v, hw => simp [wfVisited, toTypeOrUnknown]
      | .str v, hw => simp [wfVisited, toTypeOrUnknown]
      | .enum k v, hw => simp [wfVisited, toTypeOrUnknown]
    · refine ih ?_ a ha2
      match b, hw with
      | .type t, hw =>
        simp only [wfList, Bool.and_eq_true] at hw
        exact hw.2
      | .num v, hw => simp only [wfList] at hw; exact hw
      | .str v, hw => simp only [wfList] at hw; exact hw
      | .enum k v, hw => simp only [wfList] at hw; exact hw

/-- The tuple argument depth is attained by some element (or is zero). -/
theorem vdList_attained (args : List TypeArg) :
    vdList args = 0 ∨
      ∃ a ∈ args, vdList args ≤ visitedDepth (toTypeOrUnknown (some a)) := by
  induction args with
  | nil => exact Or.inl (by simp [vdList])
  | cons b rest ih =>
    right
    rcases ih with h0 | ⟨a, ha, hle⟩
    · match b with
      | .type t =>
        exact ⟨.type t, List.mem_cons_self _ _, by simp [vdList, h0, toTypeOrUnknown]⟩
      | .num v =>
        exact ⟨.num v, List.mem_cons_self _ _, by simp [vdList, h0, toTypeOrUnknown, visitedDepth]⟩
      | .str v =>
        exact ⟨.str v, List.mem_cons_self _ _, by simp [vdList, h0, toTypeOrUnknown, visitedDepth]⟩
      | .enum k v =>
        exact ⟨.enum k v, List.mem_cons_self _ _, by simp [vdList, h0, toTypeOrUnknown, visitedDepth]⟩
    · by_cases hcmp : vdList (b :: rest) ≤ vdList rest
      · exact ⟨a, List.mem_cons_of_mem _ ha, le_trans hcmp hle⟩
      · match b with
        | .type t =>
          refine ⟨.type t, List.mem_cons_self _ _, ?_⟩
          simp only [vdList, toTypeOrUnknown]
          simp only [vdList] at hcmp
          omega
        | .num v =>
          refine ⟨.num v, List.mem_cons_self _ _, ?_⟩
          simp only [vdList, toTypeOrUnknown] at hcmp ⊢
          simp [visitedDepth]
          omega
        | .str v =>
          refine ⟨.str v, List.mem_cons_self _ _, ?_⟩
          simp only [vdList, toTypeOrUnknown] at hcmp ⊢
          simp [visitedDepth]
          omega
        | .enum k v =>
          refine ⟨.enum k v, List.mem_cons_self _ _, ?_⟩
          simp only [vdList, toTypeOrUnknown] at hcmp ⊢
          simp [visitedDepth]
          omega

/-- The tuple walk succeeds when every element mapping succeeds. -/
theorem tupleMapM_ok (options : MappingOptions) (fuel dd : Nat) :
    ∀ (l : List TypeArg),
      (∀ a ∈ l, ∃ y, Emitter.mapTypeGo options fuel (toTypeOrUnknown (some a)) dd = .ok y) →
      ∀ n, ∃ ys, (List.enumFrom n l).mapM (fun p => do
          let argType ← Emitter.mapTypeGo options fuel (toTypeOrUnknown (some p.2)) dd
          pure ("_" ++ toString p.1 ++ ": " ++ argType ++ ";")) = Except.ok ys := by
  intro l
  induction l with
  | nil => intro _ n; exact ⟨[], rfl⟩
  | cons a rest ih =>
    intro hall n
    obtain ⟨y, hy⟩ := hall a (List.mem_cons_self _ _)
    obtain ⟨ys, hys⟩ := ih (fun b hb => hall b (List.mem_cons_of_mem _ hb)) (n + 1)
    refine ⟨("_" ++ toString n ++ ": " ++ y ++ ";") :: ys, ?_⟩
    rw [show List.enumFrom n (a :: rest) = (n, a) :: List.enumFrom (n + 1) rest from rfl]
    simp only [List.mapM_cons]
    rw [hys, hy]
    rfl

/-- The tuple walk propagates a depth error when every element mapping is
either a success or a depth error and at least one element errors. -/
theorem tupleMapM_err (options : MappingOptions) (fuel dd : Nat) :
    ∀ (l : List TypeArg),
      (∀ a ∈ l, (∃ y, Emitter.mapTypeGo options fuel (toTypeOrUnknown (some a)) dd = .ok y) ∨
        Emitter.mapTypeGo options fuel (toTypeOrUnknown (some a)) dd = .error .depthExceeded) →
      (∃ a ∈ l, Emitter.mapTypeGo options fuel (toTypeOrUnknown (some a)) dd = .error .depthExceeded) →
      ∀ n, (List.enumFrom n l).mapM (fun p => do
          let argType ← Emitter.mapTypeGo options fuel (toTypeOrUnknown (some p.2)) dd
          pure ("_" ++ toString p.1 ++ ": " ++ argType ++ ";")) = Except.error .depthExceeded := by
  intro l
  induction l with
  | nil =>
    intro _ hex n
    obtain ⟨a, ha, _⟩ := hex
    simp at ha
  | cons a rest ih =>
    intro hall hex n
    rw [show List.enumFrom n (a :: rest) = (n, a) :: List.enumFrom (n + 1) rest from rfl]
    simp only [List.mapM_cons]
    rcases hall a (List.mem_cons_self _ _) with ⟨y, hy⟩ | herr
    · have hexrest : ∃ b ∈ rest,
          Emitter.mapTypeGo options fuel (toTypeOrUnknown (some b)) dd = .error .depthExceeded := by
        obtain ⟨b, hb, hberr⟩ := hex
        rcases List.mem_cons.mp hb with rfl | hb2
        · rw [hy] at hberr; exact absurd hberr (by simp)
        · exact ⟨b, hb2, hberr⟩
      have := ih (fun b hb => hall b (List.mem_cons_of_mem _ hb)) hexrest (n + 1)
      rw [this, hy]
      rfl
    · rw [herr]
      rfl

/-- Monadic bind on a successful `Except` computation. -/
theorem ok_bind {ε α β : Type} (a : α) (f : α → Except ε β) :
    (Bind.bind (Except.ok a) f : Except ε β) = f a := rfl

/-- The full characterization of the mapper's depth behaviour along the
traversed positions: with no plugins, lenient unknown handling and traversed
well-formedness, a call at depth `d` with the remaining budget succeeds
exactly when the traversed depth fits under the ceiling, and otherwise fails
with the depth-exceeded error. -/
theorem mapTypeGo_depth (options : MappingOptions)
    (hpl : options.plugins = []) (hfo : options.failOnUnknown = false) :
    ∀ fuel d t, fuel + d = 22 → wfVisited t = true →
      (d + visitedDepth t ≤ 21 → ∃ s, Emitter.mapTypeGo options fuel t d = .ok s) ∧
      (22 ≤ d + visitedDepth t →
        Emitter.mapTypeGo options fuel t d = .error .depthExceeded) := by
  intro fuel
  induction fuel with
  | zero =>
    intro d t hfd hw
    refine ⟨fun hle => absurd hle ?_, fun _ => by simp [Emitter.mapTypeGo]⟩
    have := visitedDepth_pos t
    omega
  | succ fuel ih =>
    intro d t hfd hw
    by_cases hd : d > Emitter.MAX_TYPE_DEPTH
    · have hd1 : 21 ≤ d := by
        have : Emitter.MAX_TYPE_DEPTH = 20 := rfl
        omega
      refine ⟨fun hle => absurd hle ?_, fun _ => ?_⟩
      · have := visitedDepth_pos t
        omega
      · rw [mapTypeGo_eq, if_pos hd]
    · have hd20 : d ≤ 20 := by
        have : Emitter.MAX_TYPE_DEPTH = 20 := rfl
        omega
      rw [mapTypeGo_eq]
      simp only [hpl, if_neg hd, validate_of_wf hw, List.take_nil,
        List.findSome?_nil, ok_bind]
      split
      -- Nullable
      next args =>
        have hw2 : (Nat.ble args.length 100 && wfHead args) = true := by
          rw [wfVisited.eq_def] at hw; exact hw
        have hvd_eq : visitedDepth (TypeAst.mk "Nullable" args) = 1 + vdHead args := by
          rw [visitedDepth.eq_def]; rfl
        simp only [Bool.and_eq_true, Nat.ble_eq] at hw2
        have hwc : wfVisited (toTypeOrUnknown args.head?) = true := by
          rw [wfHead_eq]; exact hw2.2
        have hih := ih (d + 1) (toTypeOrUnknown args.head?) (by omega) hwc
        rw [hvd_eq]
        refine ⟨fun hvd => ?_, fun hvd => ?_⟩
        · obtain ⟨s, hs⟩ := hih.1 (by rw [vdHead_eq]; omega)
          exact ⟨s ++ " | null", by rw [hs]; rfl⟩
        · rw [hih.2 (by rw [vdHead_eq]; omega)]
          rfl
      -- LowCardinality
      next args =>
        have hw2 : (Nat.ble args.length 100 && wfHead args) = true := by
          rw [wfVisited.eq_def] at hw; exact hw
        have hvd_eq : visitedDepth (TypeAst.mk "LowCardinality" args) = 1 + vdHead args := by
          rw [visitedDepth.eq_def]; rfl
        simp only [Bool.and_eq_true, Nat.ble_eq] at hw2
        have hwc : wfVisited (toTypeOrUnknown args.head?) = true := by
          rw [wfHead_eq]; exact hw2.2
        have hih := ih (d + 1) (toTypeOrUnknown args.head?) (by omega) hwc
        rw [hvd_eq]
        refine ⟨fun hvd => ?_, fun hvd => ?_⟩
        · obtain ⟨s, hs⟩ := hih.1 (by rw [vdHead_eq]; omega)
          exact ⟨s, by rw [hs]⟩
        · rw [hih.2 (by rw [vdHead_eq]; omega)]
      -- Array
      next args =>
        have hw2 : (Nat.ble args.length 100 && wfHead args) = true := by
          rw [wfVisited.eq_def] at hw; exact hw
        have hvd_eq : visitedDepth (TypeAst.mk "Array" args) = 1 + vdHead args := by
          rw [visitedDepth.eq_def]; rfl
        simp only [Bool.and_eq_true, Nat.ble_eq] at hw2
        have hwc : wfVisited (toTypeOrUnknown args.head?) = true := by
          rw [wfHead_eq]; exact hw2.2
        have hih := ih (d + 1) (toTypeOrUnknown args.head?) (by omega) hwc
        rw [hvd_eq]
        refine ⟨fun hvd => ?_, fun hvd => ?_⟩
        · obtain ⟨s, hs⟩ := hih.1 (by rw [vdHead_eq]; omega)
          exact ⟨s ++ "[]", by rw [hs]; rfl⟩
        · rw [hih.2 (by rw [vdHead_eq]; omega)]
          rfl
      -- Tuple
      next args =>
        have hw2 : (Nat.ble args.length 100 && wfList args) = true := by
          rw [wfVisited.eq_def] at hw; exact hw
        have hvd_eq : visitedDepth (TypeAst.mk "Tuple" args) = 1 + vdList args := by
          rw [visitedDepth.eq_def]; rfl
        simp only [Bool.and_eq_true, Nat.ble_eq] at hw2
        have htake : args.take 100 = args := List.take_of_length_le hw2.1
        rw [hvd_eq, htake, show args.enum = List.enumFrom 0 args from rfl]
        refine ⟨fun hvd => ?_, fun hvd => ?_⟩
        · have hall : ∀ a ∈ args, ∃ y,
              Emitter.mapTypeGo options fuel (toTypeOrUnknown (some a)) (d + 1) = .ok y := by
            intro a ha
            exact (ih (d + 1) _ (by omega) (wfList_mem hw2.2 a ha)).1
              (by have := vdList_mem args a ha; omega)
          obtain ⟨ys, hys⟩ := tupleMapM_ok options fuel (d + 1) args hall 0
          exact ⟨"\x7b " ++ joinSep " " ys ++ " \x7d", by rw [hys]; rfl⟩
        · have hall : ∀ a ∈ args,
              (∃ y, Emitter.mapTypeGo options fuel (toTypeOrUnknown (some a)) (d + 1) = .ok y) ∨
              Emitter.mapTypeGo options fuel (toTypeOrUnknown (some a)) (d + 1) =
                .error .depthExceeded := by
            intro a ha
            by_cases hc : (d + 1) + visitedDepth (toTypeOrUnknown (some a)) ≤ 21
            · exact Or.inl ((ih (d + 1) _ (by omega) (wfList_mem hw2.2 a ha)).1 hc)
            · exact Or.inr ((ih (d + 1) _ (by omega) (wfList_mem hw2.2 a ha)).2 (by omega))
          have hex : ∃ a ∈ args,
              Emitter.mapTypeGo options fuel (toTypeOrUnknown (some a)) (d + 1) =
                .error .depthExceeded := by
            rcases vdList_attained args with h0 | ⟨a, ha, hle⟩
            · exact ((by omega : False)).elim
            · exact ⟨a, ha, (ih (d + 1) _ (by omega) (wfList_mem hw2.2 a ha)).2 (by omega)⟩
          rw [tupleMapM_err options fuel (d + 1) args hall hex 0]
          rfl
      -- Map
      next args =>
        have hw2 : (Nat.ble args.length 100 && wfSecond args) = true := by
          rw [wfVisited.eq_def] at hw; exact hw
        have hvd_eq : visitedDepth (TypeAst.mk "Map" args) = 1 + vdSecond args := by
          rw [visitedDepth.eq_def]; rfl
        simp only [Bool.and_eq_true, Nat.ble_eq] at hw2
        have hwc : wfVisited (toTypeOrUnknown args[1]?) = true := by
          rw [wfSecond_eq]; exact hw2.2
        have hih := ih (d + 1) (toTypeOrUnknown args[1]?) (by omega) hwc
        rw [hvd_eq]
        refine ⟨fun hvd => ?_, fun hvd => ?_⟩
        · obtain ⟨s, hs⟩ := hih.1 (by rw [vdSecond_eq]; omega)
          exact ⟨"Record<string, " ++ s ++ ">", by rw [hs]; rfl⟩
        · rw [hih.2 (by rw [vdSecond_eq]; omega)]
          rfl
      next args =>
        have hv1 : visitedDepth (TypeAst.mk "Enum8" args) = 1 := by
          rw [visitedDepth.eq_def]; rfl
        rw [hv1]
        exact ⟨fun hvd => ⟨Emitter.mapEnumType (TypeAst.mk "Enum8" args), rfl⟩, fun hvd => absurd hvd (by omega)⟩
      next args =>
        have hv1 : visitedDepth (TypeAst.mk "Enum16" args) = 1 := by
          rw [visitedDepth.eq_def]; rfl
        rw [hv1]
        exact ⟨fun hvd => ⟨Emitter.mapEnumType (TypeAst.mk "Enum16" args), rfl⟩, fun hvd => absurd hvd (by omega)⟩
      next args =>
        have hv1 : visitedDepth (TypeAst.mk "Decimal" args) = 1 := by
          rw [visitedDepth.eq_def]; rfl
        rw [hv1]
        exact ⟨fun hvd => ⟨if options.decimal = .decimalJs then "Decimal" else "string", rfl⟩, fun hvd => absurd hvd (by omega)⟩
      next args =>
        have hv1 : visitedDepth (TypeAst.mk "Float32" args) = 1 := by
          rw [visitedDepth.eq_def]; rfl
        rw [hv1]
        exact ⟨fun hvd => ⟨"number", rfl⟩, fun hvd => absurd hvd (by omega)⟩
      next args =>
        have hv1 : visitedDepth (TypeAst.mk "Float64" args) = 1 := by
          rw [visitedDepth.eq_def]; rfl
        rw [hv1]
        exact ⟨fun hvd => ⟨"number", rfl⟩, fun hvd => absurd hvd (by omega)⟩
      next args =>
        have hv1 : visitedDepth (TypeAst.mk "Int8" args) = 1 := by
          rw [visitedDepth.eq_def]; rfl
        rw [hv1]
        exact ⟨fun hvd => ⟨"number", rfl⟩, fun hvd => absurd hvd (by omega)⟩
      next args =>
        have hv1 : visitedDepth (TypeAst.mk "Int16" args) = 1 := by
          rw [visitedDepth.eq_def]; rfl
        rw [hv1]
        exact ⟨fun hvd => ⟨"number", rfl⟩, fun hvd => absurd hvd (by omega)⟩
      next args =>
        have hv1 : visitedDepth (TypeAst.mk "Int32" args) = 1 := by
          rw [visitedDepth.eq_def]; rfl
        rw [hv1]
        exact ⟨fun hvd => ⟨"number", rfl⟩, fun hvd => absurd hvd (by omega)⟩
      next args =>
        have hv1 : visitedDepth (TypeAst.mk "UInt8" args) = 1 := by
          rw [visitedDepth.eq_def]; rfl
        rw [hv1]
        exact ⟨fun hvd => ⟨"number", rfl⟩, fun hvd => absurd hvd (by omega)⟩
      next args =>
        have hv1 : visitedDepth (TypeAst.mk "UInt16" args) = 1 := by
          rw [visitedDepth.eq_def]; rfl
        rw [hv1]
        exact ⟨fun hvd => ⟨"number", rfl⟩, fun hvd => absurd hvd (by omega)⟩
      next args =>
        have hv1 : visitedDepth (TypeAst.mk "UInt32" args) = 1 := by
          rw [visitedDepth.eq_def]; rfl
        rw [hv1]
        exact ⟨fun hvd => ⟨"number", rfl⟩, fun hvd => absurd hvd (by omega)⟩
      next args =>
        have hv1 : visitedDepth (TypeAst.mk "Int64" args) = 1 := by
          rw [visitedDepth.eq_def]; rfl
        rw [hv1]
        exact ⟨fun hvd => ⟨if options.int64As = .bigint then "bigint" else "string", rfl⟩, fun hvd => absurd hvd (by omega)⟩
      next args =>
        have hv1 : visitedDepth (TypeAst.mk "UInt64" args) = 1 := by
          rw [visitedDepth.eq_def]; rfl
        rw [hv1]
        exact ⟨fun hvd => ⟨if options.int64As = .bigint then "bigint" else "string", rfl⟩, fun hvd => absurd hvd (by omega)⟩
      next args =>
        have hv1 : visitedDepth (TypeAst.mk "String" args) = 1 := by
          rw [visitedDepth.eq_def]; rfl
        rw [hv1]
        exact ⟨fun hvd => ⟨"string", rfl⟩, fun hvd => absurd hvd (by omega)⟩
      next args =>
        have hv1 : visitedDepth (TypeAst.mk "UUID" args) = 1 := by
          rw [visitedDepth.eq_def]; rfl
        rw [hv1]
        exact ⟨fun hvd => ⟨"string", rfl⟩, fun hvd => absurd hvd (by omega)⟩
      next args =>
        have hv1 : visitedDepth (TypeAst.mk "FixedString" args) = 1 := by
          rw [visitedDepth.eq_def]; rfl
        rw [hv1]
        exact ⟨fun hvd => ⟨"string", rfl⟩, fun hvd => absurd hvd (by omega)⟩
      next args =>
        have hv1 : visitedDepth (TypeAst.mk "IPv4" args) = 1 := by
          rw [visitedDepth.eq_def]; rfl
        rw [hv1]
        exact ⟨fun hvd => ⟨"string", rfl⟩, fun hvd => absurd hvd (by omega)⟩
      next args =>
        have hv1 : visitedDepth (TypeAst.mk "IPv6" args) = 1 := by
          rw [visitedDepth.eq_def]; rfl
        rw [hv1]
        exact ⟨fun hvd => ⟨"string", rfl⟩, fun hvd => absurd hvd (by omega)⟩
      next args =>
        have hv1 : visitedDepth (TypeAst.mk "Date" args) = 1 := by
          rw [visitedDepth.eq_def]; rfl
        rw [hv1]
        exact ⟨fun hvd => ⟨if options.datetimeAs = .date then "Date" else "string", rfl⟩, fun hvd => absurd hvd (by omega)⟩
      next args =>
        have hv1 : visitedDepth (TypeAst.mk "DateTime" args) = 1 := by
          rw [visitedDepth.eq_def]; rfl
        rw [hv1]
        exact ⟨fun hvd => ⟨if options.datetimeAs = .date then "Date" else "string", rfl⟩, fun hvd => absurd hvd (by omega)⟩
      next args =>
        have hv1 : visitedDepth (TypeAst.mk "DateTime64" args) = 1 := by
          rw [visitedDepth.eq_def]; rfl
        rw [hv1]
        exact ⟨fun hvd => ⟨if options.datetimeAs = .date then "Date" else "string", rfl⟩, fun hvd => absurd hvd (by omega)⟩
      -- unrecognised type names
      next =>
        rw [hfo]
        refine ⟨fun hvd => ⟨"unknown", rfl⟩, fun hvd => absurd hvd ?_⟩
        rw [visitedDepth.eq_def]
        split
        next _ _ heq => injection heq with hn _; exact absurd hn (by assumption)
        next _ _ heq => injection heq with hn _; exact absurd hn (by assumption)
        next _ _ heq => injection heq with hn _; exact absurd hn (by assumption)
        next _ _ heq => injection heq with hn _; exact absurd hn (by assumption)
        next _ _ heq => injection heq with hn _; exact absurd hn (by assumption)
        next => omega

/-- A chain of `n` `Nullable` wrappers around a `String` leaf. -/
def chainC4 : Nat → TypeAst
  | 0 => .mk "String" []
  | n + 1 => .mk "Nullable" [.type (chainC4 n)]

/-- Structural nesting depth of the chain. -/
theorem nestingDepth_chain : ∀ n, nestingDepth (chainC4 n) = n + 1 := by
  intro n
  induction n with
  | zero => simp [chainC4, nestingDepth, nestingDepthArgs]
  | succ n ih => simp [chainC4, nestingDepth, nestingDepthArgs, ih]; omega

/-- Traversed depth of the chain (every wrapper is visited). -/
theorem visitedDepth_chain : ∀ n, visitedDepth (chainC4 n) = n + 1 := by
  intro n
  induction n with
  | zero => simp [chainC4, visitedDepth]
  | succ n ih => simp [chainC4, visitedDepth, vdHead, ih]; omega

/-- The chain is well-formed along the traversed positions. -/
theorem wf_chain : ∀ n, wfVisited (chainC4 n) = true := by
  intro n
  induction n with
  | zero => simp [chainC4, wfVisited]
  | succ n ih => simp [chainC4, wfVisited, wfHead, ih]

/-- A `Map` whose key is a 31-deep tree: structurally far beyond the ceiling,
but the mapper never visits a `Map` key. -/
def tC4 : TypeAst := .mk "Map" [.type (chainC4 30), .type (.mk "String" [])]

/-- C4: counterexample. A tree of structural nesting depth 32 — far above the
documented ceiling of 20 — maps successfully, because the depth guard only
counts the positions the mapper traverses and a `Map` key is never visited. -/
theorem depth_bound_counterexample :
    nestingDepth tC4 = 32 ∧
    Emitter.mapTypeAstToTs tC4 optsD = .ok "Record<string, string>" :=
  ⟨by simp [tC4, nestingDepth, nestingDepthArgs, nestingDepth_chain], rfl⟩

/-- C4 (amended): the bound that actually holds is on the traversed depth.
With no plugins, lenient unknown handling and well-formed visited nodes, the
mapper succeeds on every tree of traversed depth at most 21 and fails with
the depth-exceeded error — never a silent truncation — on every tree of
traversed depth 22 or more. -/
theorem depth_bound_amended (t : TypeAst) (options : MappingOptions)
    (hpl : options.plugins = []) (hfo : options.failOnUnknown = false)
    (hw : wfVisited t = true) :
    (visitedDepth t ≤ 21 → ∃ s, Emitter.mapTypeAstToTs t options = .ok s) ∧
    (22 ≤ visitedDepth t →
      Emitter.mapTypeAstToTs t options = .error .depthExceeded) := by
  have h := mapTypeGo_depth options hpl hfo 22 0 t rfl hw
  simpa [Emitter.mapTypeAstToTs] using h

/-- C4 witness: both halves of the amended bound at concrete chains — 20
wrappers map successfully, 21 wrappers exceed the depth ceiling. -/
theorem depth_bound_amended_witness :
    (∃ s, Emitter.mapTypeAstToTs (chainC4 20) optsD = .ok s) ∧
    Emitter.mapTypeAstToTs (chainC4 21) optsD = .error .depthExceeded :=
  ⟨(depth_bound_amended (chainC4 20) optsD rfl rfl (wf_chain 20)).1
     (by rw [visitedDepth_chain]),
   (depth_bound_amended (chainC4 21) optsD rfl rfl (wf_chain 21)).2
     (by rw [visitedDepth_chain])⟩
